import Mathlib

/-!
Verification of the walkie-talkie core (server session authority, audio
ingestion, emergency coordinator, client connection manager, playback
scheduler) against its natural-language specification.

The TypeScript sources are shallowly embedded: JavaScript `Map`s become
association lists (`mget`/`mset`/`mdel`), in-place mutation of an object
fetched from a map becomes `msetIfPresent` (update-if-still-present, which
is what mutating a stale reference does), timestamps are naturals in
milliseconds, and every `Date.now()` inside a single handler invocation is
collapsed to one `now` parameter (the server is single-threaded and the
claims do not distinguish sub-handler instants).  Database statements are
modeled as total functions on a `Store` value; a statement that can throw
at runtime is given an explicit failure flag where a claim depends on it.
-/

/-! ## Association-list maps (JavaScript `Map` semantics) -/

/-- Lookup: first entry with the given key, like `Map.get`. -/
def mget {α : Type} : List (String × α) → String → Option α
  | [], _ => none
  | p :: rest, k => if p.1 = k then some p.2 else mget rest k

/-- `Map.set`: replace the first entry with the key, else append. -/
def mset {α : Type} : List (String × α) → String → α → List (String × α)
  | [], k, v => [(k, v)]
  | p :: rest, k, v => if p.1 = k then (k, v) :: rest else p :: mset rest k v

/-- `Map.delete`: remove the first entry with the key. -/
def mdel {α : Type} : List (String × α) → String → List (String × α)
  | [], _ => []
  | p :: rest, k => if p.1 = k then rest else p :: mdel rest k

/-- Mutating an object previously obtained from the map: every entry that
still holds the key is overwritten, and nothing is inserted if the key is
gone (a stale reference does not resurrect a deleted entry). -/
def msetIfPresent {α : Type} : List (String × α) → String → α → List (String × α)
  | [], _, _ => []
  | p :: rest, k, v =>
    if p.1 = k then (k, v) :: msetIfPresent rest k v else p :: msetIfPresent rest k v

/-- The keys of an association list. -/
def mkeys {α : Type} (m : List (String × α)) : List String := m.map Prod.fst

theorem mget_mset_self {α : Type} (m : List (String × α)) (k : String) (v : α) :
    mget (mset m k v) k = some v := by
  induction m with
  | nil => simp [mset, mget]
  | cons p rest ih =>
    by_cases h : p.1 = k
    · simp [mset, h, mget]
    · simp [mset, h, mget, ih]

theorem mget_mset_ne {α : Type} (m : List (String × α)) {k k' : String} (v : α)
    (h : k' ≠ k) : mget (mset m k v) k' = mget m k' := by
  have hkk : ¬ (k = k') := fun hh => h hh.symm
  induction m with
  | nil => simp [mset, mget, hkk]
  | cons p rest ih =>
    by_cases hp : p.1 = k
    · have hpk : ¬ (p.1 = k') := by rw [hp]; exact hkk
      simp [mset, hp, mget, hkk, hpk]
    · simp [mset, hp, mget, ih]

theorem mget_mdel_ne {α : Type} (m : List (String × α)) {k k' : String}
    (h : k' ≠ k) : mget (mdel m k) k' = mget m k' := by
  have hkk : ¬ (k = k') := fun hh => h hh.symm
  induction m with
  | nil => simp [mdel]
  | cons p rest ih =>
    by_cases hp : p.1 = k
    · have hpk : ¬ (p.1 = k') := by rw [hp]; exact hkk
      simp [mdel, hp, mget, hpk, hkk]
    · simp [mdel, hp, mget, ih]

theorem mget_msetIfPresent_ne {α : Type} (m : List (String × α)) {k k' : String} (v : α)
    (h : k' ≠ k) : mget (msetIfPresent m k v) k' = mget m k' := by
  have hkk : ¬ (k = k') := fun hh => h hh.symm
  induction m with
  | nil => simp [msetIfPresent]
  | cons p rest ih =>
    by_cases hp : p.1 = k
    · have hpk : ¬ (p.1 = k') := by rw [hp]; exact hkk
      simp [msetIfPresent, hp, mget, hkk, hpk, ih]
    · simp [msetIfPresent, hp, mget, ih]

theorem mget_msetIfPresent_self {α : Type} (m : List (String × α)) (k : String) (v : α) :
    mget (msetIfPresent m k v) k = (mget m k).map (fun _ => v) := by
  induction m with
  | nil => simp [msetIfPresent, mget]
  | cons p rest ih =>
    by_cases hp : p.1 = k
    · simp [msetIfPresent, hp, mget]
    · simp [msetIfPresent, hp, mget, ih]

theorem mkeys_msetIfPresent {α : Type} (m : List (String × α)) (k : String) (v : α) :
    mkeys (msetIfPresent m k v) = mkeys m := by
  induction m with
  | nil => simp [msetIfPresent]
  | cons p rest ih =>
    simp only [mkeys, List.map_cons] at ih ⊢
    by_cases hp : p.1 = k
    · simp only [msetIfPresent, if_pos hp, List.map_cons]
      exact by rw [ih, hp]
    · simp only [msetIfPresent, if_neg hp, List.map_cons, ih]

theorem mkeys_mdel {α : Type} (m : List (String × α)) (k : String) :
    mkeys (mdel m k) = (mkeys m).erase k := by
  induction m with
  | nil => simp [mdel, mkeys]
  | cons p rest ih =>
    simp only [mkeys] at ih
    by_cases hp : p.1 = k
    · simp [mdel, hp, mkeys, List.erase_cons]
    · simp [mdel, hp, mkeys, List.erase_cons, ih]

theorem mget_none_iff {α : Type} (m : List (String × α)) (k : String) :
    mget m k = none ↔ k ∉ mkeys m := by
  induction m with
  | nil => simp [mget, mkeys]
  | cons p rest ih =>
    by_cases hp : p.1 = k
    · simp [mget, hp, mkeys]
    · have hk : ¬ (k = p.1) := fun hh => hp hh.symm
      simp [mget, hp, mkeys, ih, hk]

theorem mkeys_mset_subset {α : Type} (m : List (String × α)) (k : String) (v : α) :
    mkeys (mset m k v) ⊆ k :: mkeys m := by
  induction m with
  | nil => simp [mset, mkeys]
  | cons p rest ih =>
    by_cases hp : p.1 = k
    · simp only [mset, if_pos hp, mkeys, List.map_cons]
      intro x hx
      rcases List.mem_cons.mp hx with rfl | hx
      · exact List.mem_cons_self _ _
      · exact List.mem_cons_of_mem _ (List.mem_cons_of_mem _ hx)
    · simp only [mset, if_neg hp, mkeys, List.map_cons]
      intro x hx
      rcases List.mem_cons.mp hx with rfl | hx
      · exact List.mem_cons_of_mem _ (List.mem_cons_self _ _)
      · rcases List.mem_cons.mp (ih hx) with rfl | hx'
        · exact List.mem_cons_self _ _
        · exact List.mem_cons_of_mem _ (List.mem_cons_of_mem _ hx')

theorem nodup_mkeys_mset {α : Type} (m : List (String × α)) (k : String) (v : α)
    (h : (mkeys m).Nodup) : (mkeys (mset m k v)).Nodup := by
  induction m with
  | nil => simp [mset, mkeys]
  | cons p rest ih =>
    simp only [mkeys, List.map_cons, List.nodup_cons] at h
    by_cases hp : p.1 = k
    · simp only [mset, if_pos hp, mkeys, List.map_cons, List.nodup_cons]
      exact ⟨by rw [← hp]; exact h.1, h.2⟩
    · simp only [mset, if_neg hp, mkeys, List.map_cons, List.nodup_cons]
      refine ⟨?_, ih h.2⟩
      intro hx
      rcases List.mem_cons.mp (mkeys_mset_subset rest k v hx) with hh | hmem
      · exact hp hh
      · exact h.1 hmem

theorem nodup_mkeys_mdel {α : Type} (m : List (String × α)) (k : String)
    (h : (mkeys m).Nodup) : (mkeys (mdel m k)).Nodup := by
  rw [mkeys_mdel]
  exact h.erase k

theorem nodup_mkeys_msetIfPresent {α : Type} (m : List (String × α)) (k : String) (v : α)
    (h : (mkeys m).Nodup) : (mkeys (msetIfPresent m k v)).Nodup := by
  rw [mkeys_msetIfPresent]
  exact h

theorem mget_some_mem {α : Type} {m : List (String × α)} {k : String} {v : α}
    (h : mget m k = some v) : (k, v) ∈ m := by
  induction m with
  | nil => simp [mget] at h
  | cons p rest ih =>
    by_cases hp : p.1 = k
    · simp only [mget, if_pos hp, Option.some.injEq] at h
      refine List.mem_cons.mpr (Or.inl ?_)
      cases p with
      | mk a b => simp_all
    · simp only [mget, if_neg hp] at h
      exact List.mem_cons_of_mem _ (ih h)

theorem mget_eq_some_of_mem {α : Type} {m : List (String × α)} {k : String} {v : α}
    (hn : (mkeys m).Nodup) (hm : (k, v) ∈ m) : mget m k = some v := by
  induction m with
  | nil => simp at hm
  | cons p rest ih =>
    simp only [mkeys, List.map_cons, List.nodup_cons] at hn
    rcases List.mem_cons.mp hm with h | h
    · rw [← h]
      simp [mget]
    · by_cases hp : p.1 = k
      · exfalso
        apply hn.1
        rw [hp]
        exact List.mem_map.mpr ⟨(k, v), h, rfl⟩
      · simp only [mget, if_neg hp]
        exact ih hn.2 h

theorem mget_mdel_self {α : Type} (m : List (String × α)) (k : String)
    (hn : (mkeys m).Nodup) : mget (mdel m k) k = none := by
  rw [mget_none_iff, mkeys_mdel]
  intro hc
  exact (List.Nodup.mem_erase_iff hn).mp hc |>.1 rfl

theorem mem_mdel {α : Type} {m : List (String × α)} {k : String} {p : String × α}
    (h : p ∈ mdel m k) : p ∈ m := by
  induction m with
  | nil => simp [mdel] at h
  | cons q rest ih =>
    by_cases hq : q.1 = k
    · simp only [mdel, if_pos hq] at h
      exact List.mem_cons_of_mem _ h
    · simp only [mdel, if_neg hq] at h
      rcases List.mem_cons.mp h with h | h
      · exact List.mem_cons.mpr (Or.inl h)
      · exact List.mem_cons_of_mem _ (ih h)

theorem mem_mdel_nodup {α : Type} {m : List (String × α)} {k : String} {p : String × α}
    (hn : (mkeys m).Nodup) (h : p ∈ mdel m k) : p ∈ m ∧ p.1 ≠ k := by
  refine ⟨mem_mdel h, ?_⟩
  intro hk
  have hkeys : p.1 ∈ mkeys (mdel m k) := List.mem_map.mpr ⟨p, h, rfl⟩
  rw [mkeys_mdel, hk] at hkeys
  exact (List.Nodup.mem_erase_iff hn).mp hkeys |>.1 rfl

theorem mem_mset {α : Type} {m : List (String × α)} {k : String} {v : α} {p : String × α}
    (h : p ∈ mset m k v) : p = (k, v) ∨ p ∈ m := by
  induction m with
  | nil =>
    simp only [mset, List.mem_singleton] at h
    exact Or.inl h
  | cons q rest ih =>
    by_cases hq : q.1 = k
    · simp only [mset, if_pos hq] at h
      rcases List.mem_cons.mp h with h | h
      · exact Or.inl h
      · exact Or.inr (List.mem_cons_of_mem _ h)
    · simp only [mset, if_neg hq] at h
      rcases List.mem_cons.mp h with h | h
      · exact Or.inr (List.mem_cons.mpr (Or.inl h))
      · rcases ih h with h' | h'
        · exact Or.inl h'
        · exact Or.inr (List.mem_cons_of_mem _ h')

theorem mem_mset_nodup {α : Type} {m : List (String × α)} {k : String} {v : α}
    {p : String × α} (hn : (mkeys m).Nodup) (h : p ∈ mset m k v) :
    p = (k, v) ∨ (p ∈ m ∧ p.1 ≠ k) := by
  induction m with
  | nil =>
    simp only [mset, List.mem_singleton] at h
    exact Or.inl h
  | cons q rest ih =>
    simp only [mkeys, List.map_cons, List.nodup_cons] at hn
    by_cases hq : q.1 = k
    · simp only [mset, if_pos hq] at h
      rcases List.mem_cons.mp h with h | h
      · exact Or.inl h
      · refine Or.inr ⟨List.mem_cons_of_mem _ h, ?_⟩
        intro hk
        apply hn.1
        rw [hq, ← hk]
        exact List.mem_map.mpr ⟨p, h, rfl⟩
    · simp only [mset, if_neg hq] at h
      rcases List.mem_cons.mp h with h | h
      · exact Or.inr ⟨List.mem_cons.mpr (Or.inl h), by rw [h]; exact hq⟩
      · rcases ih (by simpa [mkeys] using hn.2) h with h' | h'
        · exact Or.inl h'
        · exact Or.inr ⟨List.mem_cons_of_mem _ h'.1, h'.2⟩

theorem mem_msetIfPresent {α : Type} {m : List (String × α)} {k : String} {v : α}
    {p : String × α} (h : p ∈ msetIfPresent m k v) : p = (k, v) ∨ (p ∈ m ∧ p.1 ≠ k) := by
  induction m with
  | nil => simp [msetIfPresent] at h
  | cons q rest ih =>
    by_cases hq : q.1 = k
    · simp only [msetIfPresent, if_pos hq] at h
      rcases List.mem_cons.mp h with h | h
      · exact Or.inl h
      · rcases ih h with h' | h'
        · exact Or.inl h'
        · exact Or.inr ⟨List.mem_cons_of_mem _ h'.1, h'.2⟩
    · simp only [msetIfPresent, if_neg hq] at h
      rcases List.mem_cons.mp h with h | h
      · exact Or.inr ⟨List.mem_cons.mpr (Or.inl h), by rw [h]; exact hq⟩
      · rcases ih h with h' | h'
        · exact Or.inl h'
        · exact Or.inr ⟨List.mem_cons_of_mem _ h'.1, h'.2⟩

theorem mget_mdel_none {α : Type} {m : List (String × α)} {k k' : String}
    (h : mget m k' = none) : mget (mdel m k) k' = none := by
  rw [mget_none_iff] at h ⊢
  rw [mkeys_mdel]
  intro hc
  exact h (List.mem_of_mem_erase hc)

theorem mget_msetIfPresent_none {α : Type} {m : List (String × α)} {k k' : String} {v : α}
    (h : mget m k' = none) : mget (msetIfPresent m k v) k' = none := by
  rw [mget_none_iff] at h ⊢
  rw [mkeys_msetIfPresent]
  exact h

theorem mdel_eq_nil {α : Type} {m : List (String × α)} {k : String}
    (h : mdel m k = []) : m = [] ∨ ∃ v, m = [(k, v)] := by
  cases m with
  | nil => exact Or.inl rfl
  | cons p rest =>
    by_cases hp : p.1 = k
    · simp only [mdel, if_pos hp] at h
      refine Or.inr ⟨p.2, ?_⟩
      rw [h]
      cases p with
      | mk a b => simp_all
    · simp only [mdel, if_neg hp] at h
      exact absurd h (List.cons_ne_nil _ _)

/-! ## Shared types and server constants (src/server/src/services/socketService.ts) -/

/-- Message priority levels. -/
inductive MessagePriority where
  | routine
  | important
  | urgent
deriving DecidableEq, Repr

/-- `MAX_USERS_PER_CHANNEL`. -/
def MAX_USERS_PER_CHANNEL : Nat := 20

/-- `AUDIO_RATE_LIMIT_WINDOW_MS` (default, no env override). -/
def AUDIO_RATE_LIMIT_WINDOW_MS : Nat := 60000

/-- `AUDIO_RATE_LIMIT_MAX` (default, no env override). -/
def AUDIO_RATE_LIMIT_MAX : Nat := 30

/-- `MAX_AUDIO_BYTES` (default, no env override). -/
def MAX_AUDIO_BYTES : Nat := 1000000

/-! ## Per-user audio rate limiter (`consumeAudioRateLimit`) -/

/-- One entry of the `audioRateLimit` map: `{count, resetAt}`. -/
structure RLEntry where
  count : Nat
  resetAt : Nat
deriving DecidableEq, Repr

/-- `consumeAudioRateLimit(userId)`: fixed-window counter keyed by user id.
Returns the updated table, whether the send is allowed, and `retryAfterMs`. -/
def consumeAudioRateLimit (table : List (String × RLEntry)) (userId : String)
    (now : Nat) : List (String × RLEntry) × Bool × Nat :=
  match mget table userId with
  | none => (mset table userId ⟨1, now + AUDIO_RATE_LIMIT_WINDOW_MS⟩, true, 0)
  | some entry =>
    if entry.resetAt ≤ now then
      (mset table userId ⟨1, now + AUDIO_RATE_LIMIT_WINDOW_MS⟩, true, 0)
    else if AUDIO_RATE_LIMIT_MAX ≤ entry.count then
      (table, false, entry.resetAt - now)
    else
      (msetIfPresent table userId ⟨entry.count + 1, entry.resetAt⟩, true, 0)

/-- Audio ack error codes of `handleSendAudioMessage`. -/
inductive AudioAckCode where
  | invalid_payload
  | payload_too_large
  | duration_exceeded
  | rate_limited
  | not_found
  | unauthorized
  | internal
deriving DecidableEq, Repr

/-- An audio send acknowledgement. -/
inductive AudioAck where
  | ok (id : String) (timestamp : Nat)
  | err (code : AudioAckCode) (retryAfterMs : Option Nat)
deriving DecidableEq, Repr

/-- The rate-limit branch of `handleSendAudioMessage` (lines 682-692): on
denial it acknowledges `rate_limited` with the limiter's `retryAfterMs`. -/
def audioRateLimitGate (table : List (String × RLEntry)) (userId : String)
    (now : Nat) : List (String × RLEntry) × Option AudioAck :=
  let r := consumeAudioRateLimit table userId now
  (r.1, if r.2.1 then none else some (.err .rate_limited (some r.2.2)))

/-- Run the limiter over a list of send instants for one user, recording the
verdict of each send. -/
def rlRunAllowed (table : List (String × RLEntry)) (userId : String) :
    List Nat → List (String × RLEntry) × List Bool
  | [] => (table, [])
  | t :: rest =>
    let r := consumeAudioRateLimit table userId t
    let next := rlRunAllowed r.1 userId rest
    (next.1, r.2.1 :: next.2)

theorem consumeAudioRateLimit_inside (table : List (String × RLEntry))
    (userId : String) (now : Nat) {c R : Nat}
    (hget : mget table userId = some ⟨c, R⟩) (hlt : now < R) (hc : c < 30) :
    consumeAudioRateLimit table userId now =
      (msetIfPresent table userId ⟨c + 1, R⟩, true, 0) := by
  have h1 : ¬ (R ≤ now) := by omega
  have h2 : ¬ (AUDIO_RATE_LIMIT_MAX ≤ c) := by
    simp only [AUDIO_RATE_LIMIT_MAX]; omega
  simp [consumeAudioRateLimit, hget, h1, h2]

theorem rlRunAllowed_fill (userId : String) (R : Nat) :
    ∀ (ts : List Nat) (table : List (String × RLEntry)) (c : Nat),
      mget table userId = some ⟨c, R⟩ → (∀ t ∈ ts, t < R) → c + ts.length ≤ 30 →
      mget (rlRunAllowed table userId ts).1 userId = some ⟨c + ts.length, R⟩ ∧
      (rlRunAllowed table userId ts).2 = List.replicate ts.length true := by
  intro ts
  induction ts with
  | nil =>
    intro table c hget _ _
    simpa [rlRunAllowed] using hget
  | cons t rest ih =>
    intro table c hget hts hle
    have hstep := consumeAudioRateLimit_inside table userId t hget
      (hts t (List.mem_cons_self _ _)) (by simp at hle; omega)
    have hget' : mget (msetIfPresent table userId ⟨c + 1, R⟩) userId =
        some ⟨c + 1, R⟩ := by
      rw [mget_msetIfPresent_self, hget]
      rfl
    have hrest := ih (msetIfPresent table userId ⟨c + 1, R⟩) (c + 1) hget'
      (fun x hx => hts x (List.mem_cons_of_mem _ hx)) (by simp at hle ⊢; omega)
    simp only [rlRunAllowed, hstep]
    refine ⟨by simpa [Nat.add_assoc, Nat.add_comm 1 rest.length] using hrest.1, ?_⟩
    simp [hrest.2, List.replicate_succ]

/-- C5: under the default per-user limit of 30 messages per 60000 ms fixed
window keyed by user id, a user with no live window entry has their first 30
sends inside the window allowed; a 31st send strictly before the window's
reset time is denied by the rate-limit branch with code `rate_limited` and a
strictly positive `retryAfterMs` equal to the remaining window time; and a
send at or after the reset time is allowed again because the counter resets. -/
theorem audio_rate_limit_window (userId : String) (table0 : List (String × RLEntry))
    (h0 : mget table0 userId = none)
    (t0 : Nat) (mid : List Nat) (hmidlen : mid.length = 29)
    (hmid : ∀ t ∈ mid, t < t0 + AUDIO_RATE_LIMIT_WINDOW_MS)
    (t31 : Nat) (h31 : t31 < t0 + AUDIO_RATE_LIMIT_WINDOW_MS)
    (t32 : Nat) (h32 : t0 + AUDIO_RATE_LIMIT_WINDOW_MS ≤ t32) :
    (rlRunAllowed table0 userId (t0 :: mid)).2 = List.replicate 30 true ∧
    audioRateLimitGate (rlRunAllowed table0 userId (t0 :: mid)).1 userId t31 =
      ((rlRunAllowed table0 userId (t0 :: mid)).1,
        some (.err .rate_limited (some (t0 + AUDIO_RATE_LIMIT_WINDOW_MS - t31)))) ∧
    0 < t0 + AUDIO_RATE_LIMIT_WINDOW_MS - t31 ∧
    (consumeAudioRateLimit (rlRunAllowed table0 userId (t0 :: mid)).1 userId t32).2.1 = true := by
  have hstep0 : consumeAudioRateLimit table0 userId t0 =
      (mset table0 userId ⟨1, t0 + AUDIO_RATE_LIMIT_WINDOW_MS⟩, true, 0) := by
    simp [consumeAudioRateLimit, h0]
  have hget1 : mget (mset table0 userId ⟨1, t0 + AUDIO_RATE_LIMIT_WINDOW_MS⟩) userId =
      some ⟨1, t0 + AUDIO_RATE_LIMIT_WINDOW_MS⟩ := mget_mset_self _ _ _
  have hfill := rlRunAllowed_fill userId (t0 + AUDIO_RATE_LIMIT_WINDOW_MS) mid
    (mset table0 userId ⟨1, t0 + AUDIO_RATE_LIMIT_WINDOW_MS⟩) 1 hget1 hmid
    (by omega)
  have hrun : rlRunAllowed table0 userId (t0 :: mid) =
      ((rlRunAllowed (mset table0 userId ⟨1, t0 + AUDIO_RATE_LIMIT_WINDOW_MS⟩) userId mid).1,
       true :: (rlRunAllowed (mset table0 userId ⟨1, t0 + AUDIO_RATE_LIMIT_WINDOW_MS⟩) userId mid).2) := by
    simp [rlRunAllowed, hstep0]
  have hgetT : mget (rlRunAllowed table0 userId (t0 :: mid)).1 userId =
      some ⟨30, t0 + AUDIO_RATE_LIMIT_WINDOW_MS⟩ := by
    rw [hrun]
    have := hfill.1
    rw [hmidlen] at this
    simpa using this
  refine ⟨?_, ?_, by omega, ?_⟩
  · rw [hrun]
    have := hfill.2
    rw [hmidlen] at this
    simp [this, List.replicate_succ]
  · have hnotreset : ¬ (t0 + AUDIO_RATE_LIMIT_WINDOW_MS ≤ t31) := by omega
    simp [audioRateLimitGate, consumeAudioRateLimit, hgetT, hnotreset,
      AUDIO_RATE_LIMIT_MAX]
  · simp [consumeAudioRateLimit, hgetT, h32]

/-- Witness for C5 at a concrete run: fresh user, 30 sends at time 0,
a 31st at time 1 rejected, a send at 60000 allowed. -/
theorem audio_rate_limit_window_witness :
    (mget ([] : List (String × RLEntry)) "u" = none) ∧
    ((rlRunAllowed [] "u" (0 :: List.replicate 29 0)).2 = List.replicate 30 true ∧
    audioRateLimitGate (rlRunAllowed [] "u" (0 :: List.replicate 29 0)).1 "u" 1 =
      ((rlRunAllowed [] "u" (0 :: List.replicate 29 0)).1,
        some (.err .rate_limited (some (0 + AUDIO_RATE_LIMIT_WINDOW_MS - 1)))) ∧
    0 < 0 + AUDIO_RATE_LIMIT_WINDOW_MS - 1 ∧
    (consumeAudioRateLimit (rlRunAllowed [] "u" (0 :: List.replicate 29 0)).1 "u" 60000).2.1 = true) :=
  ⟨rfl, audio_rate_limit_window "u" [] rfl 0 (List.replicate 29 0) (by simp)
    (by intro t ht; simp at ht; simp [ht, AUDIO_RATE_LIMIT_WINDOW_MS])
    1 (by simp [AUDIO_RATE_LIMIT_WINDOW_MS]) 60000 (by simp [AUDIO_RATE_LIMIT_WINDOW_MS])⟩

/-! ## Client connection manager pending-request queue
(src/client/src/services/socketService.ts) -/

/-- `MAX_QUEUE_SIZE` of the client pending-request queue. -/
def MAX_QUEUE_SIZE : Nat := 10

/-- A queued request: `{event, payload, expectAck, timeoutMs}` (the payload
and the resolve/reject callbacks are opaque to the queue discipline). -/
structure PendingEmit (α : Type) where
  event : String
  payload : α
  expectAck : Bool
  timeoutMs : Nat
deriving DecidableEq, Repr

/-- `SocketService.enqueue`: if the queue already holds `MAX_QUEUE_SIZE`
items, shift the oldest, then push the new item at the back. -/
def clientEnqueue {α : Type} (queue : List (PendingEmit α)) (item : PendingEmit α) :
    List (PendingEmit α) :=
  (if MAX_QUEUE_SIZE ≤ queue.length then queue.tail else queue) ++ [item]

/-- `SocketService.flushQueue`: the while loop shifts items from the front
one at a time and emits each (with or without ack) in that order; the
returned list is the emission order. -/
def flushQueue {α : Type} : List (PendingEmit α) → List (PendingEmit α)
  | [] => []
  | item :: rest => item :: flushQueue rest

theorem flushQueue_eq {α : Type} (q : List (PendingEmit α)) : flushQueue q = q := by
  induction q with
  | nil => rfl
  | cons item rest ih => simp [flushQueue, ih]

theorem clientEnqueue_foldl {α : Type} (xs : List (PendingEmit α)) :
    xs.foldl clientEnqueue [] = xs.drop (xs.length - MAX_QUEUE_SIZE) := by
  induction xs using List.reverseRecOn with
  | nil => simp
  | append_singleton xs x ih =>
    rw [List.foldl_append, List.foldl_cons, List.foldl_nil, ih]
    by_cases h : xs.length < MAX_QUEUE_SIZE
    · have h1 : xs.length - MAX_QUEUE_SIZE = 0 := by omega
      have h2 : (xs ++ [x]).length - MAX_QUEUE_SIZE = 0 := by
        simp only [List.length_append, List.length_singleton]
        omega
      rw [h1, h2, List.drop_zero, List.drop_zero]
      have hlen : ¬ (MAX_QUEUE_SIZE ≤ xs.length) := by omega
      simp [clientEnqueue, hlen]
    · have hge : MAX_QUEUE_SIZE ≤ xs.length := by omega
      have hlenq : (xs.drop (xs.length - MAX_QUEUE_SIZE)).length = MAX_QUEUE_SIZE := by
        simp only [List.length_drop]
        omega
      have hcond : MAX_QUEUE_SIZE ≤ (xs.drop (xs.length - MAX_QUEUE_SIZE)).length := by
        omega
      have harith : xs.length - MAX_QUEUE_SIZE + 1 = xs.length + 1 - MAX_QUEUE_SIZE := by
        omega
      rw [clientEnqueue, if_pos hcond, List.tail_drop, harith]
      have h2 : (xs ++ [x]).length - MAX_QUEUE_SIZE = xs.length + 1 - MAX_QUEUE_SIZE := by
        simp only [List.length_append, List.length_singleton]
      have hle : xs.length + 1 - MAX_QUEUE_SIZE ≤ xs.length := by
        have hM : MAX_QUEUE_SIZE = 10 := rfl
        omega
      rw [h2, List.drop_append_of_le_length hle]

/-- C8: while disconnected the pending-request queue retains at most 10
requests in FIFO order — after enqueuing any sequence `xs` into an empty
queue the retained queue is exactly the most recent `min |xs| 10` requests
in their original order (so the 11th enqueue evicts the oldest), a full
queue drops its head on the next enqueue, and the reconnect flush replays
the retained queue unchanged, in original enqueue order. -/
theorem client_queue_retention_and_replay {α : Type} (xs : List (PendingEmit α))
    (q : List (PendingEmit α)) (hq : q.length = MAX_QUEUE_SIZE) (x : PendingEmit α) :
    xs.foldl clientEnqueue [] = xs.drop (xs.length - MAX_QUEUE_SIZE) ∧
    (xs.foldl clientEnqueue []).length = min xs.length MAX_QUEUE_SIZE ∧
    clientEnqueue q x = q.tail ++ [x] ∧
    flushQueue (xs.foldl clientEnqueue []) = xs.foldl clientEnqueue [] := by
  refine ⟨clientEnqueue_foldl xs, ?_, ?_, flushQueue_eq _⟩
  · rw [clientEnqueue_foldl xs, List.length_drop]
    omega
  · rw [clientEnqueue, if_pos (by omega)]

/-- Witness for C8: eleven enqueues retain the last ten in order, and the
flush replays them unchanged. -/
theorem client_queue_retention_and_replay_witness :
    (List.length [({ event := "e", payload := 0, expectAck := true, timeoutMs := 0 } : PendingEmit Nat),
      ⟨"e", 1, true, 0⟩, ⟨"e", 2, true, 0⟩, ⟨"e", 3, true, 0⟩, ⟨"e", 4, true, 0⟩,
      ⟨"e", 5, true, 0⟩, ⟨"e", 6, true, 0⟩, ⟨"e", 7, true, 0⟩, ⟨"e", 8, true, 0⟩,
      ⟨"e", 9, true, 0⟩] = MAX_QUEUE_SIZE) ∧
    ((List.map (fun n => (⟨"e", n, true, 0⟩ : PendingEmit Nat)) (List.range 11)).foldl
        clientEnqueue [] =
      (List.map (fun n => (⟨"e", n, true, 0⟩ : PendingEmit Nat)) (List.range 11)).drop
        (11 - MAX_QUEUE_SIZE)) := by
  have h := client_queue_retention_and_replay
    (List.map (fun n => (⟨"e", n, true, 0⟩ : PendingEmit Nat)) (List.range 11))
    [⟨"e", 0, true, 0⟩, ⟨"e", 1, true, 0⟩, ⟨"e", 2, true, 0⟩, ⟨"e", 3, true, 0⟩,
     ⟨"e", 4, true, 0⟩, ⟨"e", 5, true, 0⟩, ⟨"e", 6, true, 0⟩, ⟨"e", 7, true, 0⟩,
     ⟨"e", 8, true, 0⟩, ⟨"e", 9, true, 0⟩] (by decide) ⟨"e", 10, true, 0⟩
  exact ⟨by decide, by simpa using h.1⟩

/-! ## Client playback scheduler (`useAudioPlayer` in src/unnamed/part_004) -/

/-- The kind of a queued playback item: a decoded blob or the synthetic SOS
tone. -/
inductive PlaybackKind where
  | blob
  | sos
deriving DecidableEq, Repr

/-- A queued playback item (`QueueItem`); the blob contents are opaque. -/
structure QueueItem where
  id : String
  priority : MessagePriority
  kind : PlaybackKind
deriving DecidableEq, Repr

/-- Scheduler state: the priority of the currently playing item, if any
(`currentRef`), and the pending queue (`queueRef`). -/
structure SchedState where
  current : Option MessagePriority
  queue : List QueueItem
deriving DecidableEq, Repr

/-- The `important` insertion: splice just before the first `routine` item,
or append when there is none (`findIndex` + `splice`). -/
def insertImportant : List QueueItem → QueueItem → List QueueItem
  | [], item => [item]
  | q :: rest, item =>
    if q.priority = .routine then item :: q :: rest else q :: insertImportant rest item

/-- The insertion policy at the end of `enqueueItem` (after the interrupt
check): with `respectPriority = false`, push at the back; otherwise `urgent`
goes to the front, `important` before the first `routine`, `routine` at the
back.  The second component records whether the current item was stopped. -/
def enqueueInsert (s : SchedState) (item : QueueItem) (respectPriority : Bool) :
    SchedState × Bool :=
  if respectPriority = false then ({ s with queue := s.queue ++ [item] }, false)
  else
    match item.priority with
    | .urgent => ({ s with queue := item :: s.queue }, false)
    | .important => ({ s with queue := insertImportant s.queue item }, false)
    | .routine => ({ s with queue := s.queue ++ [item] }, false)

/-- `enqueueItem(item, options)`: if something is playing and
`allowInterrupt && item.priority === 'urgent'`, the current item is stopped
(`stopCurrent`, which clears `currentRef`) and the item is unshifted to the
front of the queue; otherwise the insertion policy above runs.  The Bool
records whether playback was interrupted. -/
def enqueueItem (s : SchedState) (item : QueueItem)
    (allowInterrupt respectPriority : Bool) : SchedState × Bool :=
  match s.current with
  | some _ =>
    if allowInterrupt = true ∧ item.priority = .urgent then
      ({ current := none, queue := item :: s.queue }, true)
    else
      enqueueInsert s item respectPriority
  | none => enqueueInsert s item respectPriority

/-- C7 counterexample: with a `routine` item playing and one queued item,
enqueueing an `urgent` item with `respectPriority = false` (and
`allowInterrupt` left at its default `true`) interrupts the current item and
places the new item at the front — it is neither appended in arrival order
nor non-preempting, refuting the claim that `respectPriority=false` alone
forces append-in-arrival-order without interruption. -/
theorem enqueue_respectPriority_false_counterexample :
    (enqueueItem ⟨some .routine, [⟨"a", .routine, .blob⟩]⟩ ⟨"u", .urgent, .blob⟩ true false).2
        = true ∧
    (enqueueItem ⟨some .routine, [⟨"a", .routine, .blob⟩]⟩ ⟨"u", .urgent, .blob⟩ true false).1.current
        = none ∧
    (enqueueItem ⟨some .routine, [⟨"a", .routine, .blob⟩]⟩ ⟨"u", .urgent, .blob⟩ true false).1.queue
        ≠ [⟨"a", .routine, .blob⟩] ++ [⟨"u", .urgent, .blob⟩] := by
  refine ⟨rfl, rfl, ?_⟩
  decide

/-- C7 as amended: an item enqueued with `respectPriority = false` is
appended at the end of the pending queue in arrival order and does not
disturb the current item, provided it does not take the interrupt path —
that is, whenever `allowInterrupt` is false, or the item is not `urgent`,
or nothing is currently playing.  (With `allowInterrupt` true — its default
— an `urgent` item enqueued while something is playing still interrupts and
goes to the front even when `respectPriority = false`.) -/
theorem enqueue_respectPriority_false_appends (s : SchedState) (item : QueueItem)
    (allowInterrupt : Bool)
    (h : allowInterrupt = false ∨ item.priority ≠ .urgent ∨ s.current = none) :
    enqueueItem s item allowInterrupt false =
      ({ s with queue := s.queue ++ [item] }, false) := by
  cases hc : s.current with
  | none => simp [enqueueItem, enqueueInsert, hc]
  | some p =>
    rcases h with h | h | h
    · simp [enqueueItem, enqueueInsert, hc, h]
    · have hni : ¬ (allowInterrupt = true ∧ item.priority = .urgent) := by
        intro hcon
        exact h hcon.2
      simp [enqueueItem, enqueueInsert, hc, hni]
    · rw [hc] at h
      exact absurd h (by simp)

/-- Witness for the amended C7: a non-urgent item enqueued while something
plays, with `respectPriority=false`, is appended and interrupts nothing. -/
theorem enqueue_respectPriority_false_appends_witness :
    ((⟨"b", .important, .blob⟩ : QueueItem).priority ≠ .urgent ∨
      (⟨some .routine, [⟨"a", .routine, .blob⟩]⟩ : SchedState).current = none) ∧
    enqueueItem ⟨some .routine, [⟨"a", .routine, .blob⟩]⟩ ⟨"b", .important, .blob⟩ true false =
      (⟨some .routine, [⟨"a", .routine, .blob⟩, ⟨"b", .important, .blob⟩]⟩, false) :=
  ⟨Or.inl (by decide),
    by
      have h := enqueue_respectPriority_false_appends
        ⟨some .routine, [⟨"a", .routine, .blob⟩]⟩ ⟨"b", .important, .blob⟩ true
        (Or.inr (Or.inl (by decide)))
      simpa using h⟩

/-! ## JavaScript string trimming and field validation -/

/-- The whitespace characters stripped by JavaScript `String.prototype.trim`
(the ones relevant here; all satisfy: not a base64 character, not `=`). -/
def isJsWhitespace (c : Char) : Bool :=
  c = ' ' || c = '\t' || c = '\n' || c = '\r' || c = '\x0b' || c = '\x0c' ||
    c = ' ' || c = '﻿'

/-- Trim both ends of a character list. -/
def trimCharList (l : List Char) : List Char :=
  ((l.dropWhile isJsWhitespace).reverse.dropWhile isJsWhitespace).reverse

/-- JavaScript `value.trim()`. -/
def jsTrim (s : String) : String := ⟨trimCharList s.data⟩

/-- `MIN_NICKNAME_LENGTH`. -/
def MIN_NICKNAME_LENGTH : Nat := 1

/-- `MAX_NICKNAME_LENGTH`. -/
def MAX_NICKNAME_LENGTH : Nat := 24

/-- `normalizeNickname`: a string input is trimmed and must be 1–24 chars;
`none` models a missing or non-string value. -/
def normalizeNickname (v : Option String) : Option String :=
  match v with
  | none => none
  | some s =>
    let t := jsTrim s
    if t.data.length < MIN_NICKNAME_LENGTH ∨ MAX_NICKNAME_LENGTH < t.data.length then none
    else some t

/-- `isValidChannelCode`: the `^\d{4}$` test. -/
def isValidChannelCode (s : String) : Bool :=
  s.data.length = 4 && s.data.all Char.isDigit

/-! ## Persistence store (`DatabaseService`, src/server schema) -/

/-- An in-memory `Channel` value. -/
structure Channel where
  code : String
  displayName : String
  createdAt : Nat
deriving DecidableEq, Repr

/-- A row of the `channels` table (`code` is the primary key). -/
structure ChannelRow where
  code : String
  displayName : String
  createdAt : Nat
  lastActivityAt : Nat
deriving DecidableEq, Repr

/-- A row of the `messages` table. -/
structure MessageRow where
  id : String
  channelCode : String
  fromUserId : String
  fromNickname : String
  createdAt : Nat
  priority : MessagePriority
  mimeType : String
  durationMs : Nat
  sizeBytes : Nat
  payload : List Nat
deriving DecidableEq, Repr

/-- A row of the `emergency_log` table. -/
structure EmergencyRow where
  id : String
  channelCode : String
  fromUserId : String
  fromNickname : String
  createdAt : Nat
  priority : MessagePriority
  message : String
deriving DecidableEq, Repr

/-- The SQLite store: three tables as row lists. -/
structure Store where
  channelsTbl : List ChannelRow
  messages : List MessageRow
  emergencyLog : List EmergencyRow
deriving DecidableEq, Repr

/-- `DatabaseService.upsertChannel`: `INSERT ... ON CONFLICT(code) DO UPDATE
SET display_name, last_activity_at` (the conflict branch keeps `created_at`). -/
def upsertChannel (st : Store) (channel : Channel) (lastActivityAt : Nat) : Store :=
  if (st.channelsTbl.find? (fun r => r.code == channel.code)).isSome then
    { st with channelsTbl := st.channelsTbl.map (fun r =>
        if r.code == channel.code then
          { r with displayName := channel.displayName, lastActivityAt := lastActivityAt }
        else r) }
  else
    { st with channelsTbl := st.channelsTbl ++
        [⟨channel.code, channel.displayName, channel.createdAt, lastActivityAt⟩] }

/-- `DatabaseService.getChannelByCode`: rebuild a `Channel` from its row. -/
def getChannelByCode (st : Store) (code : String) : Option (Channel × Nat) :=
  (st.channelsTbl.find? (fun r => r.code == code)).map
    (fun r => (⟨r.code, r.displayName, r.createdAt⟩, r.lastActivityAt))

/-- Stable-enough structural insertion for sorting rows (SQL `ORDER BY` and
the JS comparator sort only fix the order up to ties). -/
def insertSortedBy {α : Type} (le : α → α → Bool) (x : α) : List α → List α
  | [] => [x]
  | y :: ys => if le x y then x :: y :: ys else y :: insertSortedBy le x ys

/-- Sort a list by a Boolean comparator (insertion sort). -/
def sortBy {α : Type} (le : α → α → Bool) (l : List α) : List α :=
  l.foldr (insertSortedBy le) []

theorem insertSortedBy_perm {α : Type} (le : α → α → Bool) (x : α) (l : List α) :
    (insertSortedBy le x l).Perm (x :: l) := by
  induction l with
  | nil => simp [insertSortedBy]
  | cons y ys ih =>
    by_cases h : le x y = true
    · simp [insertSortedBy, h]
    · simp only [insertSortedBy, if_neg h]
      exact ((ih.cons y).trans (List.Perm.swap x y ys))

theorem sortBy_perm {α : Type} (le : α → α → Bool) (l : List α) :
    (sortBy le l).Perm l := by
  induction l with
  | nil => simp [sortBy]
  | cons x xs ih =>
    simp only [sortBy, List.foldr_cons]
    exact (insertSortedBy_perm le x _).trans (ih.cons x)

theorem mem_insertSortedBy {α : Type} {le : α → α → Bool} {x z : α} {l : List α}
    (h : z ∈ insertSortedBy le x l) : z = x ∨ z ∈ l := by
  have := (insertSortedBy_perm le x l).mem_iff.mp h
  simpa using this

theorem pairwise_insertSortedBy {α : Type} (le : α → α → Bool)
    (htrans : ∀ a b c, le a b = true → le b c = true → le a c = true)
    (htot : ∀ a b, le a b = true ∨ le b a = true) (x : α) (l : List α)
    (h : l.Pairwise (fun a b => le a b = true)) :
    (insertSortedBy le x l).Pairwise (fun a b => le a b = true) := by
  induction l with
  | nil => simp [insertSortedBy]
  | cons y ys ih =>
    rcases List.pairwise_cons.mp h with ⟨hy, hys⟩
    by_cases hxy : le x y = true
    · simp only [insertSortedBy, if_pos hxy]
      refine List.pairwise_cons.mpr ⟨?_, h⟩
      intro z hz
      rcases List.mem_cons.mp hz with rfl | hz
      · exact hxy
      · exact htrans x y z hxy (hy z hz)
    · have hyx : le y x = true := (htot x y).resolve_left hxy
      simp only [insertSortedBy, if_neg hxy]
      refine List.pairwise_cons.mpr ⟨?_, ih hys⟩
      intro z hz
      rcases mem_insertSortedBy hz with rfl | hz
      · exact hyx
      · exact hy z hz

theorem pairwise_sortBy {α : Type} (le : α → α → Bool)
    (htrans : ∀ a b c, le a b = true → le b c = true → le a c = true)
    (htot : ∀ a b, le a b = true ∨ le b a = true) (l : List α) :
    (sortBy le l).Pairwise (fun a b => le a b = true) := by
  induction l with
  | nil => simp [sortBy]
  | cons x xs ih =>
    simp only [sortBy, List.foldr_cons]
    exact pairwise_insertSortedBy le htrans htot x _ ih

/-- Newest-first order on message rows (`ORDER BY created_at DESC`). -/
def createdDesc (a b : MessageRow) : Bool := b.createdAt ≤ a.createdAt

/-- Oldest-first order on message rows (the JS `sort` comparator in
`handleCreate`). -/
def createdAsc (a b : MessageRow) : Bool := a.createdAt ≤ b.createdAt

/-- `DatabaseService.listRecentMessages`: the channel's rows newest first,
capped at `min limit 50`. -/
def listRecentMessages (st : Store) (channelCode : String) (limit : Nat := 50) :
    List MessageRow :=
  let boundedLimit := min limit 50
  if boundedLimit = 0 then []
  else (sortBy createdDesc (st.messages.filter (fun m => m.channelCode == channelCode))).take
    boundedLimit

/-- The prune statement: delete the channel's rows beyond the 50 newest. -/
def pruneMessages (st : Store) (channelCode : String) : Store :=
  let dropIds := ((sortBy createdDesc
      (st.messages.filter (fun m => m.channelCode == channelCode))).drop 50).map
      (fun m => m.id)
  { st with messages := st.messages.filter (fun m => !(dropIds.contains m.id)) }

/-- The `UPDATE channels SET last_activity_at` statement. -/
def updateChannelActivity (st : Store) (code : String) (lastActivityAt : Nat) : Store :=
  { st with channelsTbl := st.channelsTbl.map (fun r =>
      if r.code == code then { r with lastActivityAt := lastActivityAt } else r) }

/-- The body of `insertMessageTx`: insert the row, prune the channel to the
50 newest rows, refresh the channel's activity — atomically. -/
def insertMessageTx (st : Store) (row : MessageRow) : Store :=
  updateChannelActivity
    (pruneMessages { st with messages := st.messages ++ [row] } row.channelCode)
    row.channelCode row.createdAt

/-- `DatabaseService.recordAudioMessage`: rejects a `sizeBytes`/payload
mismatch and oversized payloads, then runs the transaction; `txFails`
models the transaction failing for infrastructure reasons (a failed
transaction rolls back, so `none` means the store is unchanged). -/
def recordAudioMessage (maxAudioBytes : Nat) (st : Store) (row : MessageRow)
    (txFails : Bool) : Option Store :=
  if row.sizeBytes ≠ row.payload.length then none
  else if maxAudioBytes < row.payload.length then none
  else if txFails then none
  else some (insertMessageTx st row)

/-- An emergency broadcast value. -/
structure EmergencyBroadcast where
  id : String
  channelCode : String
  fromUserId : String
  fromNickname : String
  createdAt : Nat
  priority : MessagePriority
  message : String
deriving DecidableEq, Repr

/-- `DatabaseService.recordEmergency`: append the audit row and refresh the
channel's activity. -/
def recordEmergency (st : Store) (b : EmergencyBroadcast) : Store :=
  updateChannelActivity
    { st with emergencyLog := st.emergencyLog ++
        [⟨b.id, b.channelCode, b.fromUserId, b.fromNickname, b.createdAt, b.priority,
          b.message⟩] }
    b.channelCode b.createdAt

/-! ## Server in-memory session types -/

/-- A `User` session value (`connectionStatus` as a Bool: connected?). -/
structure User where
  id : String
  nickname : String
  channelCode : String
  joinedAt : Nat
  connected : Bool
deriving DecidableEq, Repr

/-- A `UserState` entry of a channel's `users` map. -/
structure UserState where
  user : User
  socketId : String
  lastActivityAt : Nat
deriving DecidableEq, Repr

/-- A `ChannelState` entry of the `channels` map. -/
structure ChannelState where
  channel : Channel
  users : List (String × UserState)
  lastActivityAt : Nat
deriving DecidableEq, Repr

/-- A `socketIndex` entry: `{channelCode, userId}`. -/
structure SocketBinding where
  channelCode : String
  userId : String
deriving DecidableEq, Repr

/-- The whole in-memory server state owned by `createSocketService`. -/
structure ServerState where
  channels : List (String × ChannelState)
  socketIndex : List (String × SocketBinding)
  audioRateLimit : List (String × RLEntry)
deriving DecidableEq, Repr

/-- An `AudioMessageOutbound` value as emitted to clients (the payload
stands for `audioBase64`; the optional location is orthogonal to every
claim and elided). -/
structure OutboundMsg where
  id : String
  channelCode : String
  senderNickname : String
  payload : List Nat
  mimeType : String
  priority : MessagePriority
  timestamp : Nat
deriving DecidableEq, Repr

/-- Emergency ack error codes. -/
inductive EmergencyAckCode where
  | invalid_payload
  | rate_limited
  | not_found
  | internal
deriving DecidableEq, Repr

/-- An emergency acknowledgement (the human-readable `error` text is
elided). -/
inductive EmergencyAck where
  | ok (broadcast : EmergencyBroadcast)
  | err (code : EmergencyAckCode) (retryAfterMs : Nat)
deriving DecidableEq, Repr

/-- A server-to-client event payload. -/
inductive EventPayload where
  | userJoined (user : User)
  | userLeft (user : User) (leftAt : Nat)
  | audioHistory (messages : List OutboundMsg)
  | audioMessage (message : OutboundMsg)
  | audioMessageAlt (message : OutboundMsg)
  | emergencyAlert (broadcast : EmergencyBroadcast)
  | emergencyError (code : EmergencyAckCode) (retryAfterMs : Nat)
deriving DecidableEq, Repr

/-- An emission: `io.to(room).emit`, `socket.emit`, or the global
`io.emit` that reaches every connected client. -/
inductive Emit where
  | toRoom (room : String) (ev : EventPayload)
  | toSocket (socketId : String) (ev : EventPayload)
  | toAll (ev : EventPayload)
deriving DecidableEq, Repr

/-! ## Emergency coordinator (`createEmergencyService`) -/

/-- `RATE_LIMIT_WINDOW_MS = 5 * 60 * 1000` of the emergency service. -/
def RATE_LIMIT_WINDOW_MS : Nat := 300000

/-- `MAX_MESSAGE_LENGTH`. -/
def MAX_MESSAGE_LENGTH : Nat := 200

/-- `MIN_MESSAGE_LENGTH`. -/
def MIN_MESSAGE_LENGTH : Nat := 1

/-- `normalizeMessage`: trim, then require 1–200 chars. -/
def normalizeMessage (v : Option String) : Option String :=
  match v with
  | none => none
  | some s =>
    let t := jsTrim s
    if t.data.length < MIN_MESSAGE_LENGTH ∨ MAX_MESSAGE_LENGTH < t.data.length then none
    else some t

/-- The caller context resolved by `getUserContext`. -/
structure EmergencyContext where
  userId : String
  nickname : String
  channelCode : String
deriving DecidableEq, Repr

/-- The `respond` helper on a failure: with an ack, the ack carries the
error; without one, the error goes out as an `emergency:error` event to the
sender's socket. -/
def respondFailure (socketId : String) (hasAck : Bool) (code : EmergencyAckCode)
    (retryAfterMs : Nat) : List Emit × Option EmergencyAck :=
  if hasAck then ([], some (.err code retryAfterMs))
  else ([.toSocket socketId (.emergencyError code retryAfterMs)], none)

/-- `handleBroadcast`: validate the message, resolve the caller context,
enforce the per-user cooldown via `lastBroadcastByUserId`, then stamp the
broadcast `urgent` and emit `emergency:alert` globally.  `hasAck` records
whether the request supplied an acknowledgement callback.  The JS guard is
`lastSentAt && now - lastSentAt < RATE_LIMIT_WINDOW_MS`, so a (practically
unreachable) stored timestamp of `0` is falsy and skips the cooldown; with
natural-number time the truncated difference gives the same verdict as JS
for `lastSentAt ≤ now`.  (`deps.touchActivity` only refreshes in-memory
activity timestamps and is elided.)  Returns the updated per-user
last-broadcast map, the emissions, and the ack response (if any). -/
def handleBroadcast (lastMap : List (String × Nat)) (socketId : String) (now : Nat)
    (msgRaw : Option String) (ctx : Option EmergencyContext) (hasAck : Bool)
    (newId : String) :
    List (String × Nat) × List Emit × Option EmergencyAck :=
  match normalizeMessage msgRaw with
  | none =>
    let r := respondFailure socketId hasAck .invalid_payload 0
    (lastMap, r.1, r.2)
  | some message =>
    match ctx with
    | none =>
      let r := respondFailure socketId hasAck .not_found 0
      (lastMap, r.1, r.2)
    | some context =>
      let lastSentAt := mget lastMap context.userId
      match lastSentAt with
      | some t =>
        if t ≠ 0 ∧ now - t < RATE_LIMIT_WINDOW_MS then
          let r := respondFailure socketId hasAck .rate_limited
            (RATE_LIMIT_WINDOW_MS - (now - t))
          (lastMap, r.1, r.2)
        else
          let broadcast : EmergencyBroadcast :=
            ⟨newId, context.channelCode, context.userId, context.nickname, now, .urgent,
              message⟩
          (mset lastMap context.userId now, [.toAll (.emergencyAlert broadcast)],
            if hasAck then some (.ok broadcast) else none)
      | none =>
        let broadcast : EmergencyBroadcast :=
          ⟨newId, context.channelCode, context.userId, context.nickname, now, .urgent,
            message⟩
        (mset lastMap context.userId now, [.toAll (.emergencyAlert broadcast)],
          if hasAck then some (.ok broadcast) else none)

/-- The `emergency:broadcast` listener in `createSocketService`: it wraps
the ack so that a successful response is recorded to the audit log before
forwarding — but the wrapper is installed only when the request supplied an
ack callback (`ack ? wrappedAck : undefined`). -/
def onEmergencyBroadcast (db : Option Store) (lastMap : List (String × Nat))
    (socketId : String) (now : Nat) (msgRaw : Option String)
    (ctx : Option EmergencyContext) (hasAck : Bool) (newId : String) :
    Option Store × List (String × Nat) × List Emit × Option EmergencyAck :=
  let r := handleBroadcast lastMap socketId now msgRaw ctx hasAck newId
  let db' := match r.2.2, db with
    | some (.ok b), some st => some (recordEmergency st b)
    | _, _ => db
  (db', r.1, r.2.1, r.2.2)

/-- The broadcast value built by `buildBroadcast` on the success path. -/
def builtBroadcast (newId : String) (c : EmergencyContext) (now : Nat) (m : String) :
    EmergencyBroadcast :=
  ⟨newId, c.channelCode, c.userId, c.nickname, now, .urgent, m⟩

theorem handleBroadcast_success (lastMap : List (String × Nat)) (socketId : String)
    (now : Nat) (msgRaw : Option String) (m : String)
    (hmsg : normalizeMessage msgRaw = some m) (c : EmergencyContext)
    (hasAck : Bool) (newId : String)
    (hcool : mget lastMap c.userId = none ∨
      ∃ t, mget lastMap c.userId = some t ∧ t + RATE_LIMIT_WINDOW_MS ≤ now) :
    handleBroadcast lastMap socketId now msgRaw (some c) hasAck newId =
      (mset lastMap c.userId now,
        [.toAll (.emergencyAlert (builtBroadcast newId c now m))],
        if hasAck then some (.ok (builtBroadcast newId c now m)) else none) := by
  rcases hcool with hnone | ⟨t, hget, hold⟩
  · simp [handleBroadcast, hmsg, hnone, builtBroadcast]
  · have hguard : ¬ (t ≠ 0 ∧ now - t < RATE_LIMIT_WINDOW_MS) := by
      intro hcon
      omega
    simp [handleBroadcast, hmsg, hget, hguard, builtBroadcast]

theorem handleBroadcast_rate_limited (lastMap : List (String × Nat)) (socketId : String)
    (now : Nat) (msgRaw : Option String) (m : String)
    (hmsg : normalizeMessage msgRaw = some m) (c : EmergencyContext)
    (hasAck : Bool) (newId : String) (t : Nat)
    (hget : mget lastMap c.userId = some t) (ht0 : 0 < t) (htle : t ≤ now)
    (hin : now < t + RATE_LIMIT_WINDOW_MS) :
    handleBroadcast lastMap socketId now msgRaw (some c) hasAck newId =
      (lastMap,
        (respondFailure socketId hasAck .rate_limited (t + RATE_LIMIT_WINDOW_MS - now)).1,
        (respondFailure socketId hasAck .rate_limited (t + RATE_LIMIT_WINDOW_MS - now)).2) := by
  have hguard : t ≠ 0 ∧ now - t < RATE_LIMIT_WINDOW_MS := by omega
  have hretry : RATE_LIMIT_WINDOW_MS - (now - t) = t + RATE_LIMIT_WINDOW_MS - now := by
    omega
  simp [handleBroadcast, hmsg, hget, hguard, hretry]

/-- C6: for every user, an emergency broadcast succeeds when the user has no
recorded prior send or their last (positive-time) send is at least
`RATE_LIMIT_WINDOW_MS = 5` minutes old, and a second broadcast strictly less
than 5 minutes after the last accepted one fails `rate_limited` with
`retryAfterMs` equal to the remaining cooldown in milliseconds (and that
remainder is positive).  Times are clock readings, so the recorded send time
is positive and at most `now`. -/
theorem emergency_cooldown_contract (lastMap : List (String × Nat)) (socketId : String)
    (now : Nat) (msgRaw : Option String) (m : String)
    (hmsg : normalizeMessage msgRaw = some m) (c : EmergencyContext)
    (hasAck : Bool) (newId : String) :
    ((mget lastMap c.userId = none ∨
        ∃ t, mget lastMap c.userId = some t ∧ t + RATE_LIMIT_WINDOW_MS ≤ now) →
      handleBroadcast lastMap socketId now msgRaw (some c) hasAck newId =
        (mset lastMap c.userId now,
          [.toAll (.emergencyAlert (builtBroadcast newId c now m))],
          if hasAck then some (.ok (builtBroadcast newId c now m)) else none)) ∧
    (∀ t, mget lastMap c.userId = some t → 0 < t → t ≤ now →
      now < t + RATE_LIMIT_WINDOW_MS →
      handleBroadcast lastMap socketId now msgRaw (some c) hasAck newId =
        (lastMap,
          (respondFailure socketId hasAck .rate_limited
            (t + RATE_LIMIT_WINDOW_MS - now)).1,
          (respondFailure socketId hasAck .rate_limited
            (t + RATE_LIMIT_WINDOW_MS - now)).2) ∧
      0 < t + RATE_LIMIT_WINDOW_MS - now) := by
  refine ⟨fun hcool => handleBroadcast_success lastMap socketId now msgRaw m hmsg c
    hasAck newId hcool, ?_⟩
  intro t hget ht0 htle hin
  exact ⟨handleBroadcast_rate_limited lastMap socketId now msgRaw m hmsg c hasAck newId t
    hget ht0 htle hin, by omega⟩

/-- Witness for C6: a first broadcast at time 100 succeeds; a second one at
time 200 is rejected with the 299900 ms remainder; one at 300100 succeeds. -/
theorem emergency_cooldown_contract_witness :
    (normalizeMessage (some "help") = some "help") ∧
    handleBroadcast [] "s1" 100 (some "help") (some ⟨"u1", "alice", "1234"⟩) true "b1" =
      ([("u1", 100)],
        [.toAll (.emergencyAlert (builtBroadcast "b1" ⟨"u1", "alice", "1234"⟩ 100 "help"))],
        some (.ok (builtBroadcast "b1" ⟨"u1", "alice", "1234"⟩ 100 "help"))) ∧
    handleBroadcast [("u1", 100)] "s1" 200 (some "help") (some ⟨"u1", "alice", "1234"⟩)
        true "b2" =
      ([("u1", 100)], [], some (.err .rate_limited 299900)) ∧
    handleBroadcast [("u1", 100)] "s1" 300100 (some "help")
        (some ⟨"u1", "alice", "1234"⟩) true "b3" =
      ([("u1", 300100)],
        [.toAll (.emergencyAlert (builtBroadcast "b3" ⟨"u1", "alice", "1234"⟩ 300100 "help"))],
        some (.ok (builtBroadcast "b3" ⟨"u1", "alice", "1234"⟩ 300100 "help"))) := by
  have hmsg : normalizeMessage (some "help") = some "help" := by decide
  have h1 := (emergency_cooldown_contract [] "s1" 100 (some "help") "help" hmsg
    ⟨"u1", "alice", "1234"⟩ true "b1").1 (Or.inl rfl)
  have h2 := ((emergency_cooldown_contract [("u1", 100)] "s1" 200 (some "help") "help" hmsg
    ⟨"u1", "alice", "1234"⟩ true "b2").2 100 rfl (by decide) (by decide)
    (by decide)).1
  have h3 := (emergency_cooldown_contract [("u1", 100)] "s1" 300100 (some "help") "help"
    hmsg ⟨"u1", "alice", "1234"⟩ true "b3").1
    (Or.inr ⟨100, rfl, by decide⟩)
  refine ⟨hmsg, by simpa [mset] using h1, ?_, by simpa [mset] using h3⟩
  have : (100:Nat) + RATE_LIMIT_WINDOW_MS - 200 = 299900 := by decide
  simpa [respondFailure, this] using h2

/-- C2 counterexample: an emergency broadcast request sent without an
acknowledgement callback succeeds — the alert is stamped `urgent` and
emitted globally — yet nothing is appended to the persisted emergency audit
log, because `recordEmergency` is reached only through the wrapped ack. -/
theorem emergency_ackless_success_not_logged :
    onEmergencyBroadcast (some ⟨[], [], []⟩) [] "s1" 5 (some "help")
        (some ⟨"u1", "alice", "1234"⟩) false "b1" =
      (some ⟨[], [], []⟩, [("u1", 5)],
        [.toAll (.emergencyAlert ⟨"b1", "1234", "u1", "alice", 5, .urgent, "help"⟩)],
        none) ∧
    (⟨[], [], []⟩ : Store).emergencyLog = [] := by
  constructor
  · decide
  · rfl

/-- C2 as amended: every emergency broadcast that succeeds (message 1–200
chars after trim, caller bound, cooldown clear) is stamped `urgent` and
emitted globally via `io.emit` to every connected client; it is appended to
the persisted audit log exactly when the request supplied an
acknowledgement callback and the database is available — an ack-less
success is broadcast but never recorded. -/
theorem emergency_success_contract (db : Option Store) (lastMap : List (String × Nat))
    (socketId : String) (now : Nat) (msgRaw : Option String) (m : String)
    (hmsg : normalizeMessage msgRaw = some m) (c : EmergencyContext)
    (hasAck : Bool) (newId : String)
    (hcool : mget lastMap c.userId = none ∨
      ∃ t, mget lastMap c.userId = some t ∧ t + RATE_LIMIT_WINDOW_MS ≤ now) :
    (builtBroadcast newId c now m).priority = .urgent ∧
    (onEmergencyBroadcast db lastMap socketId now msgRaw (some c) hasAck newId).2.2.1 =
      [.toAll (.emergencyAlert (builtBroadcast newId c now m))] ∧
    (∀ st, db = some st → hasAck = true →
      (onEmergencyBroadcast db lastMap socketId now msgRaw (some c) hasAck newId).1 =
        some (recordEmergency st (builtBroadcast newId c now m)) ∧
      (recordEmergency st (builtBroadcast newId c now m)).emergencyLog =
        st.emergencyLog ++ [⟨newId, c.channelCode, c.userId, c.nickname, now, .urgent, m⟩]) ∧
    (hasAck = false →
      (onEmergencyBroadcast db lastMap socketId now msgRaw (some c) hasAck newId).1 = db) ∧
    (hasAck = true →
      (onEmergencyBroadcast db lastMap socketId now msgRaw (some c) hasAck newId).2.2.2 =
        some (.ok (builtBroadcast newId c now m))) := by
  have hb := handleBroadcast_success lastMap socketId now msgRaw m hmsg c hasAck newId hcool
  refine ⟨rfl, ?_, ?_, ?_, ?_⟩
  · simp [onEmergencyBroadcast, hb]
  · intro st hdb hACK
    subst hdb
    subst hACK
    refine ⟨by simp [onEmergencyBroadcast, hb], ?_⟩
    simp [recordEmergency, updateChannelActivity, builtBroadcast]
  · intro hACK
    subst hACK
    simp [onEmergencyBroadcast, hb]
  · intro hACK
    subst hACK
    simp [onEmergencyBroadcast, hb]

/-- Witness for the amended C2: with an ack callback and a live database,
a successful broadcast is recorded to the audit log. -/
theorem emergency_success_contract_witness :
    (normalizeMessage (some "help") = some "help") ∧
    ((onEmergencyBroadcast (some ⟨[], [], []⟩) [] "s1" 5 (some "help")
        (some ⟨"u1", "alice", "1234"⟩) true "b1").1 =
      some (recordEmergency ⟨[], [], []⟩
        (builtBroadcast "b1" ⟨"u1", "alice", "1234"⟩ 5 "help")) ∧
    (recordEmergency ⟨[], [], []⟩
        (builtBroadcast "b1" ⟨"u1", "alice", "1234"⟩ 5 "help")).emergencyLog =
      [] ++ [⟨"b1", "1234", "u1", "alice", 5, .urgent, "help"⟩]) :=
  ⟨by decide,
    (emergency_success_contract (some ⟨[], [], []⟩) [] "s1" 5 (some "help") "help"
      (by decide) ⟨"u1", "alice", "1234"⟩ true "b1" (Or.inl rfl)).2.2.1
      ⟨[], [], []⟩ rfl rfl⟩

/-! ## Audio persistence tail of `handleSendAudioMessage` (lines 718-757) -/

/-- The persist-then-broadcast tail: once every validation has passed, the
handler upserts the channel, records the message (the transaction), and
only then emits the two room broadcasts and the success ack.  `upsertFails`
and `txFails` model the respective statements throwing (a failed statement
leaves its own changes uncommitted; the upsert is a single statement).  The
returned triple is the store after the submit, the ack, and the emissions. -/
def persistAndBroadcast (maxAudioBytes : Nat) (db : Option Store) (channel : Channel)
    (row : MessageRow) (out : OutboundMsg) (upsertFails txFails : Bool) :
    Option Store × AudioAck × List Emit :=
  match db with
  | none => (none, .err .internal none, [])
  | some st =>
    if upsertFails then (some st, .err .internal none, [])
    else
      let st1 := upsertChannel st channel row.createdAt
      match recordAudioMessage maxAudioBytes st1 row txFails with
      | none => (some st1, .err .internal none, [])
      | some st2 =>
        (some st2, .ok out.id out.timestamp,
          [.toRoom row.channelCode (.audioMessage out),
           .toRoom row.channelCode (.audioMessageAlt out)])

/-- C4 counterexample: the channel upsert is **not** inside the message
transaction — with a store whose channel row has `lastActivityAt = 0`, a
submit whose transaction fails still commits the upsert (the row's
`lastActivityAt` becomes 10), so the store is changed by a failing submit,
refuting "channel upsert + message insert + prune happen as one
transaction, so a persistence failure leaves the store unchanged". -/
theorem persist_upsert_outside_tx_counterexample :
    (persistAndBroadcast MAX_AUDIO_BYTES
        (some ⟨[⟨"1234", "Channel 1234", 0, 0⟩], [], []⟩)
        ⟨"1234", "Channel 1234", 0⟩
        ⟨"m1", "1234", "u1", "alice", 10, .routine, "audio/webm", 1000, 1, [7]⟩
        ⟨"m1", "1234", "alice", [7], "audio/webm", .routine, 10⟩
        false true).2.1 = .err .internal none ∧
    (persistAndBroadcast MAX_AUDIO_BYTES
        (some ⟨[⟨"1234", "Channel 1234", 0, 0⟩], [], []⟩)
        ⟨"1234", "Channel 1234", 0⟩
        ⟨"m1", "1234", "u1", "alice", 10, .routine, "audio/webm", 1000, 1, [7]⟩
        ⟨"m1", "1234", "alice", [7], "audio/webm", .routine, 10⟩
        false true).2.2 = [] ∧
    (persistAndBroadcast MAX_AUDIO_BYTES
        (some ⟨[⟨"1234", "Channel 1234", 0, 0⟩], [], []⟩)
        ⟨"1234", "Channel 1234", 0⟩
        ⟨"m1", "1234", "u1", "alice", 10, .routine, "audio/webm", 1000, 1, [7]⟩
        ⟨"m1", "1234", "alice", [7], "audio/webm", .routine, 10⟩
        false true).1 ≠
      some ⟨[⟨"1234", "Channel 1234", 0, 0⟩], [], []⟩ := by
  refine ⟨rfl, rfl, ?_⟩
  decide

theorem upsertChannel_messages (st : Store) (channel : Channel) (t : Nat) :
    (upsertChannel st channel t).messages = st.messages ∧
    (upsertChannel st channel t).emergencyLog = st.emergencyLog := by
  by_cases h : (st.channelsTbl.find? (fun r => r.code == channel.code)).isSome
  · simp [upsertChannel, h]
  · simp [upsertChannel, h]

/-- C4 as amended: the message insert, the per-channel prune and the
channel-activity refresh run as one transaction (`insertMessageTx`), but
the channel upsert is a separate statement executed before it.  Hence on
any persistence failure the ack is `internal` and nothing is broadcast, and
the store after the submit is either untouched (no database, or the upsert
itself failed) or exactly the committed upsert — in particular the
`messages` and `emergency_log` tables are always unchanged by a failing
submit, while the `channels` table may retain the upsert. -/
theorem persist_failure_contract (maxAudioBytes : Nat) (db : Option Store)
    (channel : Channel) (row : MessageRow) (out : OutboundMsg)
    (upsertFails txFails : Bool)
    (hfail : ∀ id ts, (persistAndBroadcast maxAudioBytes db channel row out upsertFails
      txFails).2.1 ≠ .ok id ts) :
    (persistAndBroadcast maxAudioBytes db channel row out upsertFails txFails).2.1 =
      .err .internal none ∧
    (persistAndBroadcast maxAudioBytes db channel row out upsertFails txFails).2.2 = [] ∧
    ((persistAndBroadcast maxAudioBytes db channel row out upsertFails txFails).1 = db ∨
      (∃ st, db = some st ∧
        (persistAndBroadcast maxAudioBytes db channel row out upsertFails txFails).1 =
          some (upsertChannel st channel row.createdAt))) ∧
    (∀ st st', db = some st →
      (persistAndBroadcast maxAudioBytes db channel row out upsertFails txFails).1 =
        some st' →
      st'.messages = st.messages ∧ st'.emergencyLog = st.emergencyLog) := by
  match hdb : db with
  | none =>
    refine ⟨rfl, rfl, Or.inl rfl, ?_⟩
    intro st st' hst
    exact absurd hst (by simp)
  | some st =>
    by_cases hup : upsertFails = true
    · subst hup
      refine ⟨by simp [persistAndBroadcast], by simp [persistAndBroadcast],
        Or.inl (by simp [persistAndBroadcast]), ?_⟩
      intro st0 st' hst0 hst'
      simp [persistAndBroadcast] at hst0 hst'
      subst hst0
      rw [← hst']
      exact ⟨rfl, rfl⟩
    · have hup' : upsertFails = false := by
        cases upsertFails <;> simp_all
      subst hup'
      match hrec : recordAudioMessage maxAudioBytes
        (upsertChannel st channel row.createdAt) row txFails with
      | some st2 =>
        exfalso
        exact hfail out.id out.timestamp (by simp [persistAndBroadcast, hrec])
      | none =>
        refine ⟨by simp [persistAndBroadcast, hrec], by simp [persistAndBroadcast, hrec],
          Or.inr ⟨st, rfl, by simp [persistAndBroadcast, hrec]⟩, ?_⟩
        intro st0 st' hst0 hst'
        simp [persistAndBroadcast, hrec] at hst0 hst'
        subst hst0
        rw [← hst']
        exact upsertChannel_messages _ channel row.createdAt

/-- Witness for the amended C4: the failing-transaction run from the
counterexample input satisfies the failure contract. -/
theorem persist_failure_contract_witness :
    ((persistAndBroadcast MAX_AUDIO_BYTES
        (some ⟨[⟨"1234", "Channel 1234", 0, 0⟩], [], []⟩)
        ⟨"1234", "Channel 1234", 0⟩
        ⟨"m1", "1234", "u1", "alice", 10, .routine, "audio/webm", 1000, 1, [7]⟩
        ⟨"m1", "1234", "alice", [7], "audio/webm", .routine, 10⟩
        false true).2.1 = .err .internal none) ∧
    ((persistAndBroadcast MAX_AUDIO_BYTES
        (some ⟨[⟨"1234", "Channel 1234", 0, 0⟩], [], []⟩)
        ⟨"1234", "Channel 1234", 0⟩
        ⟨"m1", "1234", "u1", "alice", 10, .routine, "audio/webm", 1000, 1, [7]⟩
        ⟨"m1", "1234", "alice", [7], "audio/webm", .routine, 10⟩
        false true).2.2 = []) :=
  have h := persist_failure_contract MAX_AUDIO_BYTES
    (some ⟨[⟨"1234", "Channel 1234", 0, 0⟩], [], []⟩)
    ⟨"1234", "Channel 1234", 0⟩
    ⟨"m1", "1234", "u1", "alice", 10, .routine, "audio/webm", 1000, 1, [7]⟩
    ⟨"m1", "1234", "alice", [7], "audio/webm", .routine, 10⟩
    false true (by
      intro id ts hcon
      have hres : (persistAndBroadcast MAX_AUDIO_BYTES
          (some ⟨[⟨"1234", "Channel 1234", 0, 0⟩], [], []⟩)
          ⟨"1234", "Channel 1234", 0⟩
          ⟨"m1", "1234", "u1", "alice", 10, .routine, "audio/webm", 1000, 1, [7]⟩
          ⟨"m1", "1234", "alice", [7], "audio/webm", .routine, 10⟩
          false true).2.1 = .err .internal none := by decide
      rw [hres] at hcon
      simp at hcon)
  ⟨h.1, h.2.1⟩

/-! ## Channel session authority handlers -/

/-- Channel ack error codes (`AckResponse`). -/
inductive ChannelAckCode where
  | invalid_payload
  | channel_full
  | not_found
  | internal
deriving DecidableEq, Repr

/-- A create/join acknowledgement: `{channel, user}` on success. -/
inductive CreateJoinAck where
  | ok (channel : Channel) (user : User)
  | err (code : ChannelAckCode)
deriving DecidableEq, Repr

/-- A leave acknowledgement: `{channelCode, userId, leftAt}` on success. -/
inductive LeaveAck where
  | ok (channelCode : String) (userId : String) (leftAt : Nat)
  | err (code : ChannelAckCode)
deriving DecidableEq, Repr

/-- `attachUserToChannel`: create the user, add it to the channel object's
`users` map (an in-place mutation of the object, hence `msetIfPresent` on
the map), refresh the channel's activity, and bind the socket.  Returns the
new `UserState`.  (`socket.join(room)` only affects room delivery and is
carried by the `toRoom` emissions.) -/
def attachUserToChannel (s : ServerState) (cs : ChannelState)
    (socketId nickname newUserId : String) (now : Nat) : ServerState × UserState :=
  let user : User := ⟨newUserId, nickname, cs.channel.code, now, true⟩
  let ust : UserState := ⟨user, socketId, now⟩
  let cs' : ChannelState :=
    { cs with users := mset cs.users newUserId ust, lastActivityAt := now }
  ({ s with
      channels := msetIfPresent s.channels cs.channel.code cs',
      socketIndex := mset s.socketIndex socketId ⟨cs.channel.code, newUserId⟩ }, ust)

/-- `removeUserFromChannel`: unbind the socket, drop the user from its
channel (mutating the channel object), clear the user's rate-limit entry,
emit `user:left`, and delete the channel when it empties. -/
def removeUserFromChannel (s : ServerState) (socketId : String) (now : Nat) :
    ServerState × List Emit :=
  match mget s.socketIndex socketId with
  | none => (s, [])
  | some idx =>
    match mget s.channels idx.channelCode with
    | none =>
      ({ s with
          socketIndex := mdel s.socketIndex socketId
          audioRateLimit := mdel s.audioRateLimit idx.userId }, [])
    | some cs =>
      match mget cs.users idx.userId with
      | none =>
        ({ s with
            channels := if cs.users.length = 0 then mdel s.channels idx.channelCode
              else s.channels
            socketIndex := mdel s.socketIndex socketId
            audioRateLimit := mdel s.audioRateLimit idx.userId }, [])
      | some ust =>
        let leftUser : User := { ust.user with connected := false }
        let cs' : ChannelState :=
          { cs with users := mdel cs.users idx.userId, lastActivityAt := now }
        let channels1 := msetIfPresent s.channels idx.channelCode cs'
        let channels2 :=
          if cs'.users.length = 0 then mdel channels1 idx.channelCode else channels1
        ({ s with
            channels := channels2
            socketIndex := mdel s.socketIndex socketId
            audioRateLimit := mdel s.audioRateLimit idx.userId },
          [.toRoom idx.channelCode (.userLeft leftUser now)])

/-- `buildChannel`. -/
def buildChannel (channelCode : String) (now : Nat) : Channel :=
  ⟨channelCode, "Channel " ++ channelCode, now⟩

/-- `createChannel` (the service-level one): register the fresh channel
state and persist the channel row. -/
def createChannelState (s : ServerState) (db : Option Store) (channel : Channel)
    (now : Nat) : ServerState × Option Store × ChannelState :=
  let state : ChannelState := ⟨channel, [], now⟩
  ({ s with channels := mset s.channels channel.code state },
    db.map (fun st => upsertChannel st channel now), state)

/-- `getOrCreateChannel`. -/
def getOrCreateChannel (s : ServerState) (db : Option Store) (channelCode : String)
    (now : Nat) : ServerState × Option Store × ChannelState :=
  match mget s.channels channelCode with
  | some existing => (s, db, existing)
  | none => createChannelState s db (buildChannel channelCode now) now

/-- The mapping from a stored row to the outbound history message. -/
def toOutbound (m : MessageRow) : OutboundMsg :=
  ⟨m.id, m.channelCode, m.fromNickname, m.payload, m.mimeType, m.priority, m.createdAt⟩

/-- `handleCreate`: validate the nickname; `codeOpt` is the result of
`generateChannelCode` (`none` when the attempt budget was exhausted);
detach the caller if bound; get-or-create the channel; reject when full;
attach, notify the room, ack, and finally — only here, not in
`handleJoin` — replay the channel's persisted history to the new socket,
oldest first. -/
def handleCreate (db : Option Store) (s : ServerState) (socketId : String)
    (nicknameRaw : Option String) (codeOpt : Option String) (newUserId : String)
    (now : Nat) : ServerState × Option Store × CreateJoinAck × List Emit :=
  match normalizeNickname nicknameRaw with
  | none => (s, db, .err .invalid_payload, [])
  | some nickname =>
    match codeOpt with
    | none => (s, db, .err .internal, [])
    | some channelCode =>
      let det := if (mget s.socketIndex socketId).isSome
        then removeUserFromChannel s socketId now else (s, [])
      let goc := getOrCreateChannel det.1 db channelCode now
      if MAX_USERS_PER_CHANNEL ≤ goc.2.2.users.length then
        (goc.1, goc.2.1, .err .channel_full, det.2)
      else
        let att := attachUserToChannel goc.1 goc.2.2 socketId nickname newUserId now
        let emits := det.2 ++ [.toRoom channelCode (.userJoined att.2.user)]
        match goc.2.1 with
        | none => (att.1, none, .ok goc.2.2.channel att.2.user, emits)
        | some st =>
          let st2 := upsertChannel st goc.2.2.channel now
          let history := listRecentMessages st2 channelCode 50
          if history.length = 0 then
            (att.1, some st2, .ok goc.2.2.channel att.2.user, emits)
          else
            (att.1, some st2, .ok goc.2.2.channel att.2.user,
              emits ++ [.toSocket socketId
                (.audioHistory ((sortBy createdAsc history).map toOutbound))])

/-- The tail of `handleJoin` once the channel state is resolved: reject when
full, detach the caller if bound elsewhere, then attach to the channel
**object** captured before the detach (if the detach emptied and deleted
that very channel, the object is the emptied one and the map no longer
holds it), notify and ack. -/
def joinAttach (s : ServerState) (cs : ChannelState) (code nickname socketId
    newUserId : String) (now : Nat) : ServerState × CreateJoinAck × List Emit :=
  if MAX_USERS_PER_CHANNEL ≤ cs.users.length then (s, .err .channel_full, [])
  else
    let det := if (mget s.socketIndex socketId).isSome
      then removeUserFromChannel s socketId now else (s, [])
    let csNow := match mget det.1.channels code with
      | some c => c
      | none => { cs with users := ([] : List (String × UserState)), lastActivityAt := now }
    let att := attachUserToChannel det.1 csNow socketId nickname newUserId now
    (att.1, .ok csNow.channel att.2.user, det.2 ++ [.toRoom code (.userJoined att.2.user)])

/-- `handleJoin`: validate the code and nickname, resolve the channel in
memory or rehydrate it from the store (`not_found` when absent), then
`joinAttach`.  No history replay happens on join. -/
def handleJoin (db : Option Store) (s : ServerState) (socketId : String)
    (codeRaw : Option String) (nicknameRaw : Option String) (newUserId : String)
    (now : Nat) : ServerState × CreateJoinAck × List Emit :=
  let channelCode := match codeRaw with
    | some c => if isValidChannelCode c then some c else none
    | none => none
  match channelCode, normalizeNickname nicknameRaw with
  | some code, some nickname =>
    (match mget s.channels code with
    | none =>
      match db.bind (fun st => getChannelByCode st code) with
      | none => (s, .err .not_found, [])
      | some rec =>
        let cs : ChannelState := ⟨rec.1, [], rec.2⟩
        joinAttach { s with channels := mset s.channels code cs } cs code nickname
          socketId newUserId now
    | some cs => joinAttach s cs code nickname socketId newUserId now)
  | _, _ => (s, .err .invalid_payload, [])

/-- `handleLeave`: a missing or invalid payload code falls back to the
bound one; a mismatching valid code is `invalid_payload`; a dangling index
entry is repaired and acked `not_found`; otherwise detach and ack. -/
def handleLeave (s : ServerState) (socketId : String) (codeRaw : Option String)
    (now : Nat) : ServerState × LeaveAck × List Emit :=
  match mget s.socketIndex socketId with
  | none => (s, .err .not_found, [])
  | some idx =>
    let channelCode := match codeRaw with
      | some c => if isValidChannelCode c then c else idx.channelCode
      | none => idx.channelCode
    if channelCode ≠ idx.channelCode then (s, .err .invalid_payload, [])
    else
      match mget s.channels idx.channelCode with
      | none =>
        ({ s with socketIndex := mdel s.socketIndex socketId }, .err .not_found, [])
      | some cs =>
        let userId := match mget cs.users idx.userId with
          | some ust => ust.user.id
          | none => idx.userId
        let rem := removeUserFromChannel s socketId now
        (rem.1, .ok idx.channelCode userId now, rem.2)

/-- The `disconnect` listener. -/
def handleDisconnect (s : ServerState) (socketId : String) (now : Nat) :
    ServerState × List Emit :=
  removeUserFromChannel s socketId now

/-- The in-memory state effect of `handleSendAudioMessage`: the pure
validation prefix (shape, mime, duration, base64 estimate) is summarized by
`shapeOk`, the nickname equality by `nickOk`, the location check by
`locOk`, the post-rate-limit decode re-check by `decodeOk` and the
availability/success of persistence by `persistOk` — each gate sits at the
same position as in the source.  Membership maps are never written; only
the rate-limit table and, on success, the activity timestamps change. -/
def handleSendAudioMem (s : ServerState) (socketId : String)
    (claimedChannel claimedSender : String)
    (shapeOk nickOk locOk decodeOk persistOk : Bool) (now : Nat) : ServerState :=
  if shapeOk = false then s
  else
    match mget s.socketIndex socketId with
    | none => s
    | some idx =>
      if idx.channelCode ≠ claimedChannel then s
      else
        match mget s.channels idx.channelCode with
        | none => s
        | some cs =>
          match mget cs.users idx.userId with
          | none => s
          | some ust =>
            if ust.user.id ≠ claimedSender then s
            else if nickOk = false then s
            else if locOk = false then s
            else
              let rl := consumeAudioRateLimit s.audioRateLimit ust.user.id now
              let s1 := { s with audioRateLimit := rl.1 }
              if rl.2.1 = false then s1
              else if decodeOk = false then s1
              else if persistOk = false then s1
              else
                let ust' : UserState := { ust with lastActivityAt := now }
                let cs' : ChannelState :=
                  { cs with
                      users := msetIfPresent cs.users idx.userId ust'
                      lastActivityAt := now }
                { s1 with channels := msetIfPresent s1.channels idx.channelCode cs' }

/-- C3: a join request carrying a valid 4-digit code that names an
in-memory channel which already has 20 members, and a valid nickname, is
acknowledged `channel_full` and mutates nothing: the returned state is the
input state (so the target channel's user map, the caller's binding and the
socket index are unchanged) and nothing is emitted. -/
theorem join_full_channel (db : Option Store) (s : ServerState) (socketId : String)
    (code : String) (hcode : isValidChannelCode code = true)
    (nickRaw : Option String) (nickname : String)
    (hnick : normalizeNickname nickRaw = some nickname)
    (newUserId : String) (now : Nat) (cs : ChannelState)
    (hcs : mget s.channels code = some cs)
    (hfull : cs.users.length = MAX_USERS_PER_CHANNEL) :
    handleJoin db s socketId (some code) nickRaw newUserId now =
      (s, .err .channel_full, []) := by
  have hge : MAX_USERS_PER_CHANNEL ≤ cs.users.length := by omega
  simp [handleJoin, hcode, hnick, hcs, joinAttach, hge]

/-- A concrete channel at capacity (20 members). -/
def c3FullChannel : ChannelState :=
  ⟨⟨"1234", "Channel 1234", 0⟩,
    (List.range 20).map (fun i =>
      (toString i, ⟨⟨toString i, "member", "1234", 0, true⟩, "sock" ++ toString i, 0⟩)),
    0⟩

/-- Witness for C3: the 21st join attempt against a full channel. -/
theorem join_full_channel_witness :
    (isValidChannelCode "1234" = true) ∧
    (c3FullChannel.users.length = MAX_USERS_PER_CHANNEL) ∧
    handleJoin none ⟨[("1234", c3FullChannel)], [], []⟩ "s99" (some "1234")
        (some "bob") "u99" 7 =
      (⟨[("1234", c3FullChannel)], [], []⟩, .err .channel_full, []) :=
  ⟨by decide, by decide,
    join_full_channel none ⟨[("1234", c3FullChannel)], [], []⟩ "s99" "1234" (by decide)
      (some "bob") "bob" (by decide) "u99" 7 c3FullChannel (by decide) (by decide)⟩

/-- Does an emission carry an `audio-history` payload? -/
def emitsAudioHistory (e : Emit) : Bool :=
  match e with
  | .toRoom _ (.audioHistory _) => true
  | .toSocket _ (.audioHistory _) => true
  | .toAll (.audioHistory _) => true
  | _ => false

theorem removeUser_no_history (s : ServerState) (socketId : String) (now : Nat) :
    ∀ e ∈ (removeUserFromChannel s socketId now).2, emitsAudioHistory e = false := by
  unfold removeUserFromChannel
  cases hidx : mget s.socketIndex socketId with
  | none => simp [hidx]
  | some idx =>
    cases hch : mget s.channels idx.channelCode with
    | none => simp [hidx, hch]
    | some cs =>
      cases hu : mget cs.users idx.userId with
      | none => simp [hidx, hch, hu]
      | some ust => simp [hidx, hch, hu, emitsAudioHistory]

theorem joinAttach_no_history (s : ServerState) (cs : ChannelState)
    (code nickname socketId newUserId : String) (now : Nat) :
    ∀ e ∈ (joinAttach s cs code nickname socketId newUserId now).2.2,
      emitsAudioHistory e = false := by
  unfold joinAttach
  by_cases hfull : MAX_USERS_PER_CHANNEL ≤ cs.users.length
  · simp [hfull]
  · by_cases hb : (mget s.socketIndex socketId).isSome
    · simp only [hfull, if_false, hb, if_true]
      intro e he
      simp only [List.mem_append, List.mem_singleton] at he
      rcases he with he | he
      · exact removeUser_no_history s socketId now e he
      · rw [he]
        rfl
    · simp [hfull, hb, emitsAudioHistory]

theorem handleJoin_no_history (db : Option Store) (s : ServerState) (socketId : String)
    (codeRaw nicknameRaw : Option String) (newUserId : String) (now : Nat) :
    ∀ e ∈ (handleJoin db s socketId codeRaw nicknameRaw newUserId now).2.2,
      emitsAudioHistory e = false := by
  unfold handleJoin
  cases codeRaw with
  | none =>
    cases normalizeNickname nicknameRaw <;> simp
  | some c =>
    by_cases hv : isValidChannelCode c
    · cases hnick : normalizeNickname nicknameRaw with
      | none => simp [hv, hnick]
      | some nickname =>
        simp only [hv, if_true, hnick]
        cases hch : mget s.channels c with
        | none =>
          cases hdb : db.bind (fun st => getChannelByCode st c) with
          | none => simp [hch, hdb]
          | some rec =>
            simp only [hch, hdb]
            exact joinAttach_no_history _ _ _ _ _ _ _
        | some cs =>
          simp only [hch]
          exact joinAttach_no_history _ _ _ _ _ _ _
    · cases normalizeNickname nicknameRaw <;> simp [hv]

theorem listRecentMessages_upsert (st : Store) (ch : Channel) (t : Nat)
    (code : String) (n : Nat) :
    listRecentMessages (upsertChannel st ch t) code n = listRecentMessages st code n := by
  have h := (upsertChannel_messages st ch t).1
  simp [listRecentMessages, h]

theorem removeUser_channels_none {s : ServerState} {socketId : String} {now : Nat}
    {code : String} (h : mget s.channels code = none) :
    mget (removeUserFromChannel s socketId now).1.channels code = none := by
  unfold removeUserFromChannel
  cases hidx : mget s.socketIndex socketId with
  | none => simpa [hidx] using h
  | some idx =>
    cases hch : mget s.channels idx.channelCode with
    | none => simpa [hidx, hch] using h
    | some cs =>
      cases hu : mget cs.users idx.userId with
      | none =>
        by_cases hlen : cs.users.length = 0 <;>
          simp [hidx, hch, hu, hlen, mget_mdel_none h, h]
      | some ust =>
        by_cases hlen : (mdel cs.users idx.userId).length = 0 <;>
          simp [hidx, hch, hu, hlen, mget_mdel_none (mget_msetIfPresent_none h),
            mget_msetIfPresent_none h]

/-- The client's `audio-history` listener (src/unnamed/part_002): each
history message is enqueued via `enqueueAudio(blob, priority, id,
{allowInterrupt: false, respectPriority: false})`; the pair of Bools is
`(allowInterrupt, respectPriority)`. -/
def clientOnAudioHistory (messages : List OutboundMsg) : List (QueueItem × Bool × Bool) :=
  messages.map (fun m => (⟨m.id, m.priority, .blob⟩, false, false))

theorem enqueueItem_no_flags (sst : SchedState) (item : QueueItem) :
    enqueueItem sst item false false = ({ sst with queue := sst.queue ++ [item] }, false) := by
  cases hc : sst.current <;> simp [enqueueItem, enqueueInsert, hc]

/-- C1 counterexample: a successful `channel:join` into an active channel
whose code has a persisted message replays nothing — the only emission is
the `user:joined` room event, never an `audio-history` event, although the
store holds history for that channel.  This refutes the claim that history
replay happens on every successful join as well as create. -/
theorem join_success_no_history_counterexample :
    (handleJoin
        (some ⟨[⟨"1234", "Channel 1234", 0, 0⟩],
          [⟨"m1", "1234", "u0", "old", 3, .routine, "audio/webm", 1000, 1, [7]⟩], []⟩)
        ⟨[("1234", ⟨⟨"1234", "Channel 1234", 0⟩,
            [("u1", ⟨⟨"u1", "alice", "1234", 0, true⟩, "s1", 0⟩)], 0⟩)],
          [("s1", ⟨"1234", "u1"⟩)], []⟩
        "s2" (some "1234") (some "bob") "u2" 5).2.1 =
      .ok ⟨"1234", "Channel 1234", 0⟩ ⟨"u2", "bob", "1234", 5, true⟩ ∧
    (handleJoin
        (some ⟨[⟨"1234", "Channel 1234", 0, 0⟩],
          [⟨"m1", "1234", "u0", "old", 3, .routine, "audio/webm", 1000, 1, [7]⟩], []⟩)
        ⟨[("1234", ⟨⟨"1234", "Channel 1234", 0⟩,
            [("u1", ⟨⟨"u1", "alice", "1234", 0, true⟩, "s1", 0⟩)], 0⟩)],
          [("s1", ⟨"1234", "u1"⟩)], []⟩
        "s2" (some "1234") (some "bob") "u2" 5).2.2 =
      [.toRoom "1234" (.userJoined ⟨"u2", "bob", "1234", 5, true⟩)] ∧
    listRecentMessages
        ⟨[⟨"1234", "Channel 1234", 0, 0⟩],
          [⟨"m1", "1234", "u0", "old", 3, .routine, "audio/webm", 1000, 1, [7]⟩], []⟩
        "1234" 50 ≠ [] := by
  refine ⟨by decide, by decide, by decide⟩

theorem listRecentMessages_length_le (st : Store) (code : String) :
    (listRecentMessages st code 50).length ≤ 50 := by
  simp only [listRecentMessages]
  have hmin : min 50 50 = 50 := rfl
  rw [hmin]
  simp [List.length_take]

theorem createdAsc_trans (a b c : MessageRow) (hab : createdAsc a b = true)
    (hbc : createdAsc b c = true) : createdAsc a c = true := by
  simp only [createdAsc, decide_eq_true_eq] at *
  omega

theorem createdAsc_total (a b : MessageRow) :
    createdAsc a b = true ∨ createdAsc b a = true := by
  simp only [createdAsc, decide_eq_true_eq]
  omega

theorem handleCreate_history_run (st : Store) (s : ServerState) (socketId : String)
    (nickRaw : Option String) (nickname code newUserId : String) (now : Nat)
    (hnick : normalizeNickname nickRaw = some nickname)
    (hfresh : mget s.channels code = none)
    (hhist : listRecentMessages st code 50 ≠ []) :
    (handleCreate (some st) s socketId nickRaw (some code) newUserId now).2.2.1 =
      .ok (buildChannel code now) ⟨newUserId, nickname, code, now, true⟩ ∧
    (handleCreate (some st) s socketId nickRaw (some code) newUserId now).2.2.2.getLast? =
      some (.toSocket socketId (.audioHistory
        ((sortBy createdAsc (listRecentMessages st code 50)).map toOutbound))) := by
  have hlen : ¬ ((listRecentMessages st code 50).length = 0) := by
    simpa [List.length_eq_zero] using hhist
  have h20 : ¬ (MAX_USERS_PER_CHANNEL ≤ (0 : Nat)) := by decide
  by_cases hb : (mget s.socketIndex socketId).isSome
  · have hdet1 := @removeUser_channels_none s socketId now code hfresh
    constructor <;>
      simp [handleCreate, hnick, hb, getOrCreateChannel, hdet1, createChannelState,
        attachUserToChannel, buildChannel, listRecentMessages_upsert, hlen, h20,
        List.getLast?_concat]
  · have hb' : (mget s.socketIndex socketId).isSome = false := by simpa using hb
    constructor <;>
      simp [handleCreate, hnick, hb', getOrCreateChannel, hfresh, createChannelState,
        attachUserToChannel, buildChannel, listRecentMessages_upsert, hlen, h20,
        List.getLast?_concat]

/-- C1 as amended: history replay happens only on successful channel
**create**, never on join.  (a) No emission of `handleJoin` ever carries an
`audio-history` payload.  (b) On a successful create of a fresh code whose
persisted channel has messages, the last emission is an `audio-history`
event to the creating socket, carrying the up-to-50 most recent persisted
messages (`listRecentMessages`) re-sorted in chronological order (oldest
first); the receiver enqueues each such message with
`allowInterrupt = false` and `respectPriority = false`, which appends in
arrival order without preempting the current item. -/
theorem history_replay_on_create_not_join :
    (∀ (db : Option Store) (s : ServerState) (socketId : String)
        (codeRaw nicknameRaw : Option String) (newUserId : String) (now : Nat),
      ∀ e ∈ (handleJoin db s socketId codeRaw nicknameRaw newUserId now).2.2,
        emitsAudioHistory e = false) ∧
    (∀ (st : Store) (s : ServerState) (socketId : String) (nickRaw : Option String)
        (nickname code newUserId : String) (now : Nat),
      normalizeNickname nickRaw = some nickname →
      mget s.channels code = none →
      listRecentMessages st code 50 ≠ [] →
      ((handleCreate (some st) s socketId nickRaw (some code) newUserId now).2.2.1 =
          .ok (buildChannel code now) ⟨newUserId, nickname, code, now, true⟩ ∧
        (handleCreate (some st) s socketId nickRaw (some code) newUserId now).2.2.2.getLast? =
          some (.toSocket socketId (.audioHistory
            ((sortBy createdAsc (listRecentMessages st code 50)).map toOutbound))) ∧
        ((sortBy createdAsc (listRecentMessages st code 50)).map toOutbound).Pairwise
          (fun a b => a.timestamp ≤ b.timestamp) ∧
        ((sortBy createdAsc (listRecentMessages st code 50)).map toOutbound).Perm
          ((listRecentMessages st code 50).map toOutbound) ∧
        (listRecentMessages st code 50).length ≤ 50 ∧
        clientOnAudioHistory
            ((sortBy createdAsc (listRecentMessages st code 50)).map toOutbound) =
          ((sortBy createdAsc (listRecentMessages st code 50)).map toOutbound).map
            (fun m => (⟨m.id, m.priority, .blob⟩, false, false)) ∧
        (∀ (sst : SchedState) (item : QueueItem), enqueueItem sst item false false =
          ({ sst with queue := sst.queue ++ [item] }, false)))) := by
  refine ⟨handleJoin_no_history, ?_⟩
  intro st s socketId nickRaw nickname code newUserId now hnick hfresh hhist
  obtain ⟨hack, hlast⟩ := handleCreate_history_run st s socketId nickRaw nickname code
    newUserId now hnick hfresh hhist
  refine ⟨hack, hlast, ?_, ?_, listRecentMessages_length_le st code, rfl,
    enqueueItem_no_flags⟩
  · rw [List.pairwise_map]
    have hp := pairwise_sortBy createdAsc createdAsc_trans createdAsc_total
      (listRecentMessages st code 50)
    refine hp.imp ?_
    intro a b hab
    simpa [createdAsc, toOutbound, decide_eq_true_eq] using hab
  · exact (sortBy_perm createdAsc (listRecentMessages st code 50)).map toOutbound

/-- Witness for the amended C1: a create that regenerates the code of a
persisted channel with one stored message replays that message to the
creator. -/
theorem history_replay_on_create_not_join_witness :
    (normalizeNickname (some "alice") = some "alice") ∧
    ((handleCreate
        (some ⟨[⟨"1234", "Channel 1234", 0, 0⟩],
          [⟨"m1", "1234", "u0", "old", 3, .routine, "audio/webm", 1000, 1, [7]⟩], []⟩)
        ⟨[], [], []⟩ "s1" (some "alice") (some "1234") "u1" 9).2.2.1 =
      .ok (buildChannel "1234" 9) ⟨"u1", "alice", "1234", 9, true⟩ ∧
    (handleCreate
        (some ⟨[⟨"1234", "Channel 1234", 0, 0⟩],
          [⟨"m1", "1234", "u0", "old", 3, .routine, "audio/webm", 1000, 1, [7]⟩], []⟩)
        ⟨[], [], []⟩ "s1" (some "alice") (some "1234") "u1" 9).2.2.2.getLast? =
      some (.toSocket "s1" (.audioHistory
        ((sortBy createdAsc (listRecentMessages
          ⟨[⟨"1234", "Channel 1234", 0, 0⟩],
            [⟨"m1", "1234", "u0", "old", 3, .routine, "audio/webm", 1000, 1, [7]⟩], []⟩
          "1234" 50)).map toOutbound)))) :=
  have h := (history_replay_on_create_not_join).2
    ⟨[⟨"1234", "Channel 1234", 0, 0⟩],
      [⟨"m1", "1234", "u0", "old", 3, .routine, "audio/webm", 1000, 1, [7]⟩], []⟩
    ⟨[], [], []⟩ "s1" (some "alice") "alice" "1234" "u1" 9 (by decide) rfl (by decide)
  ⟨by decide, h.1, h.2.1⟩

/-! ## The membership invariant (C9) -/

theorem mset_ne_nil {α : Type} (m : List (String × α)) (k : String) (v : α) :
    mset m k v ≠ [] := by
  cases m with
  | nil => simp [mset]
  | cons p rest =>
    by_cases hp : p.1 = k <;> simp [mset, hp]

theorem msetIfPresent_ne_nil {α : Type} {m : List (String × α)} (k : String) (v : α)
    (h : m ≠ []) : msetIfPresent m k v ≠ [] := by
  cases m with
  | nil => exact absurd rfl h
  | cons p rest =>
    by_cases hp : p.1 = k <;> simp [msetIfPresent, hp]

theorem mdel_length {α : Type} {m : List (String × α)} {k : String} {v : α}
    (h : mget m k = some v) : (mdel m k).length + 1 = m.length := by
  induction m with
  | nil => simp [mget] at h
  | cons p rest ih =>
    by_cases hp : p.1 = k
    · simp [mdel, hp]
    · simp only [mget, if_neg hp] at h
      simp [mdel, hp, ih h]

theorem getChannelByCode_code {st : Store} {code : String} {rec : Channel × Nat}
    (h : getChannelByCode st code = some rec) : rec.1.code = code := by
  simp only [getChannelByCode, Option.map_eq_some'] at h
  obtain ⟨row, hrow, hrec⟩ := h
  have := List.find?_some hrow
  simp only [beq_iff_eq] at this
  rw [← hrec]
  exact this

/-- Well-formedness of one `channels` entry: its users map has unique keys,
its channel value carries the entry's code, and — except possibly for one
`exempt` code mid-construction — it has at least one member. -/
def channelEntryOk (exempt : Option String) (p : String × ChannelState) : Prop :=
  (mkeys p.2.users).Nodup ∧ p.2.channel.code = p.1 ∧ (exempt ≠ some p.1 → p.2.users ≠ [])

/-- A socket-index entry is backed: its channel is in the map, the channel's
users map holds its userId, and that user state points back at the socket. -/
def bindingOk (channels : List (String × ChannelState)) (q : String × SocketBinding) :
    Prop :=
  ∃ cs, mget channels q.2.channelCode = some cs ∧
    ∃ ust, mget cs.users q.2.userId = some ust ∧ ust.socketId = q.1

/-- The server invariant, parameterized by an optional code whose entry is
allowed to be (temporarily) empty. -/
def ServerInvAux (s : ServerState) (exempt : Option String) : Prop :=
  (mkeys s.socketIndex).Nodup ∧
  (mkeys s.channels).Nodup ∧
  (∀ p ∈ s.channels, channelEntryOk exempt p) ∧
  (∀ q ∈ s.socketIndex, bindingOk s.channels q)

/-- The membership invariant of C9: socket ids are unique in the index,
every binding names a live channel containing its user, and every live
channel has at least one member. -/
def ServerInv (s : ServerState) : Prop := ServerInvAux s none

theorem serverInvAux_weaken {s : ServerState} (ex : Option String)
    (h : ServerInv s) : ServerInvAux s ex := by
  obtain ⟨h1, h2, h3, h4⟩ := h
  refine ⟨h1, h2, ?_, h4⟩
  intro p hp
  obtain ⟨ha, hb, hc⟩ := h3 p hp
  exact ⟨ha, hb, fun _ => hc (by simp)⟩

/-- A freshly generated user id: unused in every channel's users map and in
every binding (what `randomUUID()` guarantees in practice). -/
def FreshUserId (s : ServerState) (uid : String) : Prop :=
  (∀ p ∈ s.channels, mget p.2.users uid = none) ∧
  (∀ q ∈ s.socketIndex, q.2.userId ≠ uid)

theorem removeUser_inv (s : ServerState) (socketId : String) (now : Nat)
    (ex : Option String) (h : ServerInvAux s ex) :
    ServerInvAux (removeUserFromChannel s socketId now).1 ex := by
  obtain ⟨h1, h2, h3, h4⟩ := h
  unfold removeUserFromChannel
  cases hidx : mget s.socketIndex socketId with
  | none => exact ⟨h1, h2, h3, h4⟩
  | some idx =>
    have hqmem : (socketId, idx) ∈ s.socketIndex := mget_some_mem hidx
    obtain ⟨cs, hch, ust, hu, hsock⟩ := h4 _ hqmem
    have hcsmem : (idx.channelCode, cs) ∈ s.channels := mget_some_mem hch
    obtain ⟨husersnd, hcodeeq, _⟩ := h3 _ hcsmem
    simp only [hidx, hch, hu]
    by_cases hempty : (mdel cs.users idx.userId).length = 0
    · simp only [hempty, if_true]
      refine ⟨nodup_mkeys_mdel _ _ h1,
        nodup_mkeys_mdel _ _ (nodup_mkeys_msetIfPresent _ _ _ h2), ?_, ?_⟩
      · intro p hp
        have hp1 := mem_mdel_nodup (nodup_mkeys_msetIfPresent _ _ _ h2) hp
        rcases mem_msetIfPresent hp1.1 with hpe | hpo
        · exact absurd (by rw [hpe]) hp1.2
        · exact h3 p hpo.1
      · intro q hq
        have hq1 := mem_mdel_nodup h1 hq
        obtain ⟨csq, hcq, ustq, huq, hsq⟩ := h4 q hq1.1
        by_cases hcode : q.2.channelCode = idx.channelCode
        · rw [hcode, hch] at hcq
          have hcseq : cs = csq := Option.some.inj hcq
          subst hcseq
          by_cases huid : q.2.userId = idx.userId
          · rw [huid, hu] at huq
            have husteq : ust = ustq := Option.some.inj huq
            subst husteq
            exact absurd (hsq ▸ hsock ▸ rfl : q.1 = socketId) hq1.2
          · exfalso
            have hsurv : mget (mdel cs.users idx.userId) q.2.userId = some ustq := by
              rw [mget_mdel_ne _ huid]
              exact huq
            rw [List.length_eq_zero] at hempty
            rw [hempty] at hsurv
            simp [mget] at hsurv
        · refine ⟨csq, ?_, ustq, huq, hsq⟩
          rw [mget_mdel_ne _ hcode, mget_msetIfPresent_ne _ _ hcode]
          exact hcq
    · simp only [hempty, if_false]
      refine ⟨nodup_mkeys_mdel _ _ h1, nodup_mkeys_msetIfPresent _ _ _ h2, ?_, ?_⟩
      · intro p hp
        rcases mem_msetIfPresent hp with hpe | hpo
        · rw [hpe]
          refine ⟨nodup_mkeys_mdel _ _ husersnd, hcodeeq, fun _ => ?_⟩
          intro hnil
          apply hempty
          have hnil' : mdel cs.users idx.userId = [] := hnil
          rw [hnil']
          rfl
        · exact h3 p hpo.1
      · intro q hq
        have hq1 := mem_mdel_nodup h1 hq
        obtain ⟨csq, hcq, ustq, huq, hsq⟩ := h4 q hq1.1
        by_cases hcode : q.2.channelCode = idx.channelCode
        · rw [hcode, hch] at hcq
          have hcseq : cs = csq := Option.some.inj hcq
          subst hcseq
          by_cases huid : q.2.userId = idx.userId
          · rw [huid, hu] at huq
            have husteq : ust = ustq := Option.some.inj huq
            subst husteq
            exact absurd (hsq ▸ hsock ▸ rfl : q.1 = socketId) hq1.2
          · refine ⟨⟨cs.channel, mdel cs.users idx.userId, now⟩, ?_, ustq, ?_, hsq⟩
            · rw [hcode, mget_msetIfPresent_self, hch]
              rfl
            · rw [mget_mdel_ne _ huid]
              exact huq
        · refine ⟨csq, ?_, ustq, huq, hsq⟩
          rw [mget_msetIfPresent_ne _ _ hcode]
          exact hcq

theorem removeUser_fresh (s : ServerState) (socketId : String) (now : Nat) (uid : String)
    (h : FreshUserId s uid) :
    FreshUserId (removeUserFromChannel s socketId now).1 uid := by
  obtain ⟨hc, hb⟩ := h
  unfold removeUserFromChannel
  cases hidx : mget s.socketIndex socketId with
  | none =>
    simp only [hidx]
    exact ⟨hc, hb⟩
  | some idx =>
    have huid : idx.userId ≠ uid := hb (socketId, idx) (mget_some_mem hidx)
    have huid' : uid ≠ idx.userId := fun hh => huid hh.symm
    cases hch : mget s.channels idx.channelCode with
    | none =>
      simp only [hidx, hch]
      exact ⟨hc, fun q hq => hb q (mem_mdel hq)⟩
    | some cs =>
      cases hu : mget cs.users idx.userId with
      | none =>
        simp only [hidx, hch, hu]
        by_cases hlen : cs.users.length = 0
        · simp only [hlen, if_true]
          exact ⟨fun p hp => hc p (mem_mdel hp), fun q hq => hb q (mem_mdel hq)⟩
        · simp only [hlen, if_false]
          exact ⟨hc, fun q hq => hb q (mem_mdel hq)⟩
      | some ust =>
        simp only [hidx, hch, hu]
        have hentry : ∀ p, p ∈ msetIfPresent s.channels idx.channelCode
            ⟨cs.channel, mdel cs.users idx.userId, now⟩ → mget p.2.users uid = none := by
          intro p hp
          rcases mem_msetIfPresent hp with hpe | hpo
          · rw [hpe]
            show mget (mdel cs.users idx.userId) uid = none
            rw [mget_mdel_ne _ huid']
            exact hc _ (mget_some_mem hch)
          · exact hc p hpo.1
        by_cases hempty : (mdel cs.users idx.userId).length = 0
        · simp only [hempty, if_true]
          exact ⟨fun p hp => hentry p (mem_mdel hp), fun q hq => hb q (mem_mdel hq)⟩
        · simp only [hempty, if_false]
          exact ⟨hentry, fun q hq => hb q (mem_mdel hq)⟩

theorem removeUser_channels_ne (s : ServerState) (socketId : String) (now : Nat)
    (code : String)
    (hne : ∀ idx, mget s.socketIndex socketId = some idx → idx.channelCode ≠ code) :
    mget (removeUserFromChannel s socketId now).1.channels code = mget s.channels code := by
  unfold removeUserFromChannel
  cases hidx : mget s.socketIndex socketId with
  | none => simp [hidx]
  | some idx =>
    have hcne : code ≠ idx.channelCode := fun hh => hne idx hidx hh.symm
    cases hch : mget s.channels idx.channelCode with
    | none => simp [hidx, hch]
    | some cs =>
      cases hu : mget cs.users idx.userId with
      | none =>
        by_cases hlen : cs.users.length = 0
        · simp [hidx, hch, hu, hlen, mget_mdel_ne _ hcne]
        · simp [hidx, hch, hu, hlen]
      | some ust =>
        by_cases hempty : (mdel cs.users idx.userId).length = 0
        · simp [hidx, hch, hu, hempty, mget_mdel_ne _ hcne,
            mget_msetIfPresent_ne _ _ hcne]
        · simp [hidx, hch, hu, hempty, mget_msetIfPresent_ne _ _ hcne]

theorem removeUser_channels_same (s : ServerState) (socketId : String) (now : Nat)
    {idx : SocketBinding} {cs : ChannelState} {ust : UserState}
    (hidx : mget s.socketIndex socketId = some idx)
    (hch : mget s.channels idx.channelCode = some cs)
    (hu : mget cs.users idx.userId = some ust)
    (hlen : ¬ ((mdel cs.users idx.userId).length = 0)) :
    mget (removeUserFromChannel s socketId now).1.channels idx.channelCode =
      some ⟨cs.channel, mdel cs.users idx.userId, now⟩ := by
  unfold removeUserFromChannel
  simp only [hidx, hch, hu, hlen, if_false]
  rw [mget_msetIfPresent_self, hch]
  rfl

theorem attach_inv (s : ServerState) (cs : ChannelState) (socketId nickname uid : String)
    (now : Nat) (code : String)
    (h1 : (mkeys s.socketIndex).Nodup) (h2 : (mkeys s.channels).Nodup)
    (h3 : ∀ p ∈ s.channels, channelEntryOk (some code) p)
    (h4 : ∀ q ∈ s.socketIndex, bindingOk s.channels q)
    (hcs : mget s.channels code = some cs)
    (hcode : cs.channel.code = code)
    (hfresh : FreshUserId s uid) :
    ServerInv (attachUserToChannel s cs socketId nickname uid now).1 := by
  obtain ⟨hfc, hfb⟩ := hfresh
  have hcsmem := mget_some_mem hcs
  obtain ⟨hnodupU, _, _⟩ := h3 _ hcsmem
  unfold attachUserToChannel ServerInv ServerInvAux
  simp only [hcode]
  refine ⟨nodup_mkeys_mset _ _ _ h1, nodup_mkeys_msetIfPresent _ _ _ h2, ?_, ?_⟩
  · intro p hp
    rcases mem_msetIfPresent hp with hpe | hpo
    · rw [hpe]
      exact ⟨nodup_mkeys_mset _ _ _ hnodupU, hcode, fun _ => mset_ne_nil _ _ _⟩
    · obtain ⟨ha, hb', hc'⟩ := h3 p hpo.1
      exact ⟨ha, hb', fun _ => hc' (fun hh => hpo.2 (Option.some.inj hh).symm)⟩
  · intro q hq
    rcases mem_mset_nodup h1 hq with hqe | hqo
    · rw [hqe]
      have hcsX : mget (msetIfPresent s.channels code
          { cs with
              users := mset cs.users uid ⟨⟨uid, nickname, code, now, true⟩, socketId, now⟩
              lastActivityAt := now }) code =
          some { cs with
              users := mset cs.users uid ⟨⟨uid, nickname, code, now, true⟩, socketId, now⟩
              lastActivityAt := now } := by
        rw [mget_msetIfPresent_self, hcs]
        rfl
      exact ⟨_, hcsX, _, mget_mset_self cs.users uid _, rfl⟩
    · obtain ⟨csq, hcq, ustq, huq, hsq⟩ := h4 q hqo.1
      by_cases hqc : q.2.channelCode = code
      · rw [hqc, hcs] at hcq
        have hcseq : cs = csq := Option.some.inj hcq
        subst hcseq
        have hqu : q.2.userId ≠ uid := hfb q hqo.1
        have hcsX : mget (msetIfPresent s.channels code
            { cs with
                users := mset cs.users uid ⟨⟨uid, nickname, code, now, true⟩, socketId, now⟩
                lastActivityAt := now }) q.2.channelCode =
            some { cs with
                users := mset cs.users uid ⟨⟨uid, nickname, code, now, true⟩, socketId, now⟩
                lastActivityAt := now } := by
          rw [hqc, mget_msetIfPresent_self, hcs]
          rfl
        refine ⟨_, hcsX, ustq, ?_, hsq⟩
        show mget (mset cs.users uid _) q.2.userId = some ustq
        rw [mget_mset_ne _ _ hqu]
        exact huq
      · refine ⟨csq, ?_, ustq, huq, hsq⟩
        rw [mget_msetIfPresent_ne _ _ hqc]
        exact hcq

theorem joinAttach_inv_present (s : ServerState) (cs : ChannelState)
    (code nickname socketId uid : String) (now : Nat)
    (hInv : ServerInv s) (hfresh : FreshUserId s uid)
    (hch : mget s.channels code = some cs)
    (hsafe : ∀ idx, mget s.socketIndex socketId = some idx →
      idx.channelCode = code → ¬ (cs.users.length = 1)) :
    ServerInv (joinAttach s cs code nickname socketId uid now).1 := by
  obtain ⟨i1, i2, i3, i4⟩ := hInv
  have hcode : cs.channel.code = code := (i3 _ (mget_some_mem hch)).2.1
  unfold joinAttach
  by_cases hfull : MAX_USERS_PER_CHANNEL ≤ cs.users.length
  · simp only [hfull, if_true]
    exact ⟨i1, i2, i3, i4⟩
  · by_cases hb : (mget s.socketIndex socketId).isSome
    · obtain ⟨idx, hidx⟩ := Option.isSome_iff_exists.mp hb
      by_cases hsame : idx.channelCode = code
      · have hnot1 := hsafe idx hidx hsame
        obtain ⟨cs2, hch2, ust, hu, hsock⟩ := i4 _ (mget_some_mem hidx)
        have hch' : mget s.channels idx.channelCode = some cs := by
          rw [hsame]
          exact hch
        rw [hch'] at hch2
        have hcseq : cs = cs2 := Option.some.inj hch2
        subst hcseq
        have hu' : mget cs.users idx.userId = some ust := hu
        have hlenrel := mdel_length hu'
        have hlen : ¬ ((mdel cs.users idx.userId).length = 0) := by
          intro h0
          exact hnot1 (by omega)
        have hlook := removeUser_channels_same s socketId now hidx hch' hu' hlen
        have hlook' : mget (removeUserFromChannel s socketId now).1.channels code =
            some ⟨cs.channel, mdel cs.users idx.userId, now⟩ := by
          rw [← hsame]
          exact hlook
        simp only [hfull, if_false]
        simp [hb, hlook']
        obtain ⟨d1, d2, d3, d4⟩ :=
          removeUser_inv s socketId now none ⟨i1, i2, i3, i4⟩
        exact attach_inv _ _ _ _ _ _ code d1 d2
          (fun p hp => by
            obtain ⟨ha, hb', hc'⟩ := d3 p hp
            exact ⟨ha, hb', fun _ => hc' (by simp)⟩)
          d4 hlook' hcode (removeUser_fresh s socketId now uid hfresh)
      · have hne : ∀ idx', mget s.socketIndex socketId = some idx' →
            idx'.channelCode ≠ code := by
          intro idx' hidx'
          rw [hidx] at hidx'
          rw [← Option.some.inj hidx']
          exact hsame
        have hlook : mget (removeUserFromChannel s socketId now).1.channels code =
            some cs := by
          rw [removeUser_channels_ne s socketId now code hne]
          exact hch
        simp only [hfull, if_false]
        simp [hb, hlook]
        obtain ⟨d1, d2, d3, d4⟩ :=
          removeUser_inv s socketId now none ⟨i1, i2, i3, i4⟩
        exact attach_inv _ _ _ _ _ _ code d1 d2
          (fun p hp => by
            obtain ⟨ha, hb', hc'⟩ := d3 p hp
            exact ⟨ha, hb', fun _ => hc' (by simp)⟩)
          d4 hlook hcode (removeUser_fresh s socketId now uid hfresh)
    · have hb' : (mget s.socketIndex socketId).isSome = false := by simpa using hb
      simp only [hfull, if_false]
      simp [hb', hch]
      exact attach_inv _ _ _ _ _ _ code i1 i2
        (fun p hp => by
          obtain ⟨ha, hb'', hc'⟩ := i3 p hp
          exact ⟨ha, hb'', fun _ => hc' (by simp)⟩)
        i4 hch hcode hfresh

theorem joinAttach_inv_fresh (s : ServerState) (cs : ChannelState)
    (code nickname socketId uid : String) (now : Nat)
    (hAux : ServerInvAux s (some code)) (hfresh : FreshUserId s uid)
    (hch : mget s.channels code = some cs)
    (hcode : cs.channel.code = code) (hEmpty : cs.users = [])
    (hnb : ∀ q ∈ s.socketIndex, q.2.channelCode ≠ code) :
    ServerInv (joinAttach s cs code nickname socketId uid now).1 := by
  obtain ⟨i1, i2, i3, i4⟩ := hAux
  have hfull : ¬ (MAX_USERS_PER_CHANNEL ≤ cs.users.length) := by
    rw [hEmpty]
    decide
  unfold joinAttach
  simp only [hfull, if_false]
  by_cases hb : (mget s.socketIndex socketId).isSome
  · obtain ⟨idx, hidx⟩ := Option.isSome_iff_exists.mp hb
    have hne : ∀ idx', mget s.socketIndex socketId = some idx' →
        idx'.channelCode ≠ code := by
      intro idx' hidx'
      rw [hidx] at hidx'
      rw [← Option.some.inj hidx']
      exact hnb (socketId, idx) (mget_some_mem hidx)
    have hlook : mget (removeUserFromChannel s socketId now).1.channels code =
        some cs := by
      rw [removeUser_channels_ne s socketId now code hne]
      exact hch
    simp [hb, hlook]
    obtain ⟨d1, d2, d3, d4⟩ :=
      removeUser_inv s socketId now (some code) ⟨i1, i2, i3, i4⟩
    exact attach_inv _ _ _ _ _ _ code d1 d2 d3 d4 hlook hcode
      (removeUser_fresh s socketId now uid hfresh)
  · have hb' : (mget s.socketIndex socketId).isSome = false := by simpa using hb
    simp [hb', hch]
    exact attach_inv _ _ _ _ _ _ code i1 i2 i3 i4 hch hcode hfresh

theorem handleJoin_inv (db : Option Store) (s : ServerState) (socketId : String)
    (codeRaw nickRaw : Option String) (uid : String) (now : Nat)
    (hInv : ServerInv s) (hfresh : FreshUserId s uid)
    (hsafe : ∀ code idx cs, codeRaw = some code → isValidChannelCode code = true →
      mget s.socketIndex socketId = some idx → idx.channelCode = code →
      mget s.channels code = some cs → ¬ (cs.users.length = 1)) :
    ServerInv (handleJoin db s socketId codeRaw nickRaw uid now).1 := by
  unfold handleJoin
  cases codeRaw with
  | none =>
    cases normalizeNickname nickRaw <;> simpa using hInv
  | some c =>
    by_cases hv : isValidChannelCode c
    · cases hnick : normalizeNickname nickRaw with
      | none => simpa [hv, hnick] using hInv
      | some nickname =>
        simp only [hv, if_true, hnick]
        cases hch : mget s.channels c with
        | some cs =>
          simp only [hch]
          exact joinAttach_inv_present s cs c nickname socketId uid now hInv hfresh hch
            (fun idx hidx hc => hsafe c idx cs rfl hv hidx hc hch)
        | none =>
          cases hdb : db.bind (fun st => getChannelByCode st c) with
          | none => simpa [hch, hdb] using hInv
          | some rec =>
            simp only [hch, hdb]
            obtain ⟨i1, i2, i3, i4⟩ := hInv
            have hnb : ∀ q ∈ s.socketIndex, q.2.channelCode ≠ c := by
              intro q hq hqc
              obtain ⟨csq, hcq, _⟩ := i4 q hq
              rw [hqc, hch] at hcq
              exact Option.noConfusion hcq
            have hreccode : rec.1.code = c := by
              obtain ⟨st, hst, hg⟩ := Option.bind_eq_some.mp hdb
              exact getChannelByCode_code hg
            have hnb' : ∀ q ∈ ({ s with
                channels := mset s.channels c ⟨rec.1, [], rec.2⟩ } :
                ServerState).socketIndex, q.2.channelCode ≠ c := hnb
            refine joinAttach_inv_fresh _ ⟨rec.1, [], rec.2⟩ c nickname socketId uid now
              ⟨i1, nodup_mkeys_mset _ _ _ i2, ?_, ?_⟩ ⟨?_, hfresh.2⟩
              (mget_mset_self _ _ _) hreccode rfl hnb'
            · intro p hp
              rcases mem_mset_nodup i2 hp with hpe | hpo
              · rw [hpe]
                refine ⟨by simp [mkeys], hreccode, fun hcontra => absurd rfl hcontra⟩
              · obtain ⟨ha, hb', hc'⟩ := i3 p hpo.1
                exact ⟨ha, hb', fun _ => hc' (by simp)⟩
            · intro q hq
              obtain ⟨csq, hcq, ustq, huq, hsq⟩ := i4 q hq
              refine ⟨csq, ?_, ustq, huq, hsq⟩
              rw [mget_mset_ne _ _ (hnb q hq)]
              exact hcq
            · intro p hp
              rcases mem_mset_nodup i2 hp with hpe | hpo
              · rw [hpe]
                simp [mget]
              · exact hfresh.1 p hpo.1
    · cases normalizeNickname nickRaw <;> simpa [hv] using hInv

theorem createAttach_inv (detS : ServerState)
    (code nickname socketId uid : String) (now : Nat)
    (hInv : ServerInv detS) (hfr : FreshUserId detS uid)
    (hnone : mget detS.channels code = none) :
    ServerInv ((attachUserToChannel
      { detS with channels := mset detS.channels code ⟨buildChannel code now, [], now⟩ }
      ⟨buildChannel code now, [], now⟩ socketId nickname uid now).1) := by
  obtain ⟨j1, j2, j3, j4⟩ := hInv
  have hnbc : ∀ q ∈ detS.socketIndex, q.2.channelCode ≠ code := by
    intro q hq hqc
    obtain ⟨csq, hcq, _⟩ := j4 q hq
    rw [hqc, hnone] at hcq
    exact Option.noConfusion hcq
  refine attach_inv _ _ _ _ _ _ code j1 (nodup_mkeys_mset _ _ _ j2) ?_ ?_
    (mget_mset_self _ _ _) rfl ⟨?_, hfr.2⟩
  · intro p hp
    rcases mem_mset_nodup j2 hp with hpe | hpo
    · rw [hpe]
      exact ⟨by simp [mkeys], rfl, fun hcontra => absurd rfl hcontra⟩
    · obtain ⟨ha, hb', hc'⟩ := j3 p hpo.1
      exact ⟨ha, hb', fun _ => hc' (by simp)⟩
  · intro q hq
    obtain ⟨csq, hcq, ustq, huq, hsq⟩ := j4 q hq
    refine ⟨csq, ?_, ustq, huq, hsq⟩
    rw [mget_mset_ne _ _ (hnbc q hq)]
    exact hcq
  · intro p hp
    rcases mem_mset_nodup j2 hp with hpe | hpo
    · rw [hpe]
      simp [mget]
    · exact hfr.1 p hpo.1

theorem handleCreate_inv (db : Option Store) (s : ServerState) (socketId : String)
    (nickRaw codeOpt : Option String) (uid : String) (now : Nat)
    (hInv : ServerInv s) (hfresh : FreshUserId s uid)
    (hcode : ∀ c, codeOpt = some c → mget s.channels c = none) :
    ServerInv (handleCreate db s socketId nickRaw codeOpt uid now).1 := by
  unfold handleCreate
  cases hnick : normalizeNickname nickRaw with
  | none => simpa [hnick] using hInv
  | some nickname =>
    cases codeOpt with
    | none => simpa [hnick] using hInv
    | some code =>
      have hf := hcode code rfl
      have hcap : ¬ (MAX_USERS_PER_CHANNEL ≤
          (⟨buildChannel code now, [], now⟩ : ChannelState).users.length) := by
        simp [MAX_USERS_PER_CHANNEL]
      by_cases hb : (mget s.socketIndex socketId).isSome
      · have hf' : mget (removeUserFromChannel s socketId now).1.channels code = none :=
          removeUser_channels_none hf
        have hInv' := removeUser_inv s socketId now none hInv
        have hfr' := removeUser_fresh s socketId now uid hfresh
        simp only [hnick, hb, if_true, getOrCreateChannel, hf', createChannelState]
        rw [if_neg hcap]
        cases db with
        | none =>
          exact createAttach_inv _ code nickname socketId uid now hInv' hfr' hf'
        | some st =>
          simp only [Option.map_some']
          split
          · exact createAttach_inv _ code nickname socketId uid now hInv' hfr' hf'
          · exact createAttach_inv _ code nickname socketId uid now hInv' hfr' hf'
      · have hb' : (mget s.socketIndex socketId).isSome = false := by simpa using hb
        simp only [hnick, hb', Bool.false_eq_true, if_false, getOrCreateChannel, hf,
          createChannelState]
        rw [if_neg hcap]
        cases db with
        | none =>
          exact createAttach_inv _ code nickname socketId uid now hInv hfresh hf
        | some st =>
          simp only [Option.map_some']
          split
          · exact createAttach_inv _ code nickname socketId uid now hInv hfresh hf
          · exact createAttach_inv _ code nickname socketId uid now hInv hfresh hf

theorem handleLeave_inv (s : ServerState) (socketId : String) (codeRaw : Option String)
    (now : Nat) (hInv : ServerInv s) :
    ServerInv (handleLeave s socketId codeRaw now).1 := by
  unfold handleLeave
  cases hidx : mget s.socketIndex socketId with
  | none => simpa [hidx] using hInv
  | some idx =>
    simp only [hidx]
    split
    · exact hInv
    · cases hch : mget s.channels idx.channelCode with
      | none =>
        obtain ⟨csq, hcq, _⟩ := hInv.2.2.2 _ (mget_some_mem hidx)
        have hcq' : mget s.channels idx.channelCode = some csq := hcq
        rw [hch] at hcq'
        exact Option.noConfusion hcq'
      | some cs =>
        simp only [hch]
        exact removeUser_inv s socketId now none hInv

theorem handleSendAudioMem_inv (s : ServerState) (socketId cc sender : String)
    (shapeOk nickOk locOk decodeOk persistOk : Bool) (now : Nat)
    (hInv : ServerInv s) :
    ServerInv (handleSendAudioMem s socketId cc sender shapeOk nickOk locOk decodeOk
      persistOk now) := by
  obtain ⟨i1, i2, i3, i4⟩ := hInv
  unfold handleSendAudioMem
  by_cases hsh : shapeOk = false
  · rw [if_pos hsh]
    exact ⟨i1, i2, i3, i4⟩
  · rw [if_neg hsh]
    cases hidx : mget s.socketIndex socketId with
    | none => exact ⟨i1, i2, i3, i4⟩
    | some idx =>
      dsimp only
      by_cases hcc : idx.channelCode ≠ cc
      · rw [if_pos hcc]
        exact ⟨i1, i2, i3, i4⟩
      · rw [if_neg hcc]
        cases hch : mget s.channels idx.channelCode with
        | none => exact ⟨i1, i2, i3, i4⟩
        | some cs =>
          dsimp only
          cases hu : mget cs.users idx.userId with
          | none => exact ⟨i1, i2, i3, i4⟩
          | some ust =>
            dsimp only
            by_cases hsid : ust.user.id ≠ sender
            · rw [if_pos hsid]
              exact ⟨i1, i2, i3, i4⟩
            · rw [if_neg hsid]
              by_cases hnick : nickOk = false
              · rw [if_pos hnick]
                exact ⟨i1, i2, i3, i4⟩
              · rw [if_neg hnick]
                by_cases hloc : locOk = false
                · rw [if_pos hloc]
                  exact ⟨i1, i2, i3, i4⟩
                · rw [if_neg hloc]
                  by_cases hrl : (consumeAudioRateLimit s.audioRateLimit ust.user.id
                      now).2.1 = false
                  · rw [if_pos hrl]
                    exact ⟨i1, i2, i3, i4⟩
                  · rw [if_neg hrl]
                    by_cases hdec : decodeOk = false
                    · rw [if_pos hdec]
                      exact ⟨i1, i2, i3, i4⟩
                    · rw [if_neg hdec]
                      by_cases hper : persistOk = false
                      · rw [if_pos hper]
                        exact ⟨i1, i2, i3, i4⟩
                      · rw [if_neg hper]
                        obtain ⟨hnodU, hcodeq, hnonE⟩ := i3 _ (mget_some_mem hch)
                        refine ⟨i1, ?_, ?_, ?_⟩
                        · rw [mkeys_msetIfPresent]
                          exact i2
                        · intro p hp
                          rcases mem_msetIfPresent hp with hpe | hpo
                          · rw [hpe]
                            refine ⟨?_, hcodeq, fun _ => ?_⟩
                            · show (mkeys (msetIfPresent cs.users idx.userId
                                { ust with lastActivityAt := now })).Nodup
                              rw [mkeys_msetIfPresent]
                              exact hnodU
                            · exact msetIfPresent_ne_nil _ _ (hnonE (by simp))
                          · exact i3 p hpo.1
                        · intro q hq
                          obtain ⟨csq, hcq, ustq, huq, hsq⟩ := i4 q hq
                          by_cases hqc : q.2.channelCode = idx.channelCode
                          · rw [hqc] at hcq
                            have hcq2 : mget s.channels idx.channelCode = some csq := hcq
                            rw [hch] at hcq2
                            have hcseq : cs = csq := Option.some.inj hcq2
                            subst hcseq
                            have hcsX : mget (msetIfPresent s.channels idx.channelCode
                                { cs with
                                    users := msetIfPresent cs.users idx.userId
                                      { ust with lastActivityAt := now }
                                    lastActivityAt := now }) q.2.channelCode =
                                some { cs with
                                    users := msetIfPresent cs.users idx.userId
                                      { ust with lastActivityAt := now }
                                    lastActivityAt := now } := by
                              rw [hqc, mget_msetIfPresent_self, hch]
                              rfl
                            by_cases hqu : q.2.userId = idx.userId
                            · have huq2 : mget cs.users idx.userId = some ustq := by
                                rw [← hqu]
                                exact huq
                              rw [hu] at huq2
                              have husteq : ust = ustq := Option.some.inj huq2
                              refine ⟨_, hcsX, { ust with lastActivityAt := now }, ?_, ?_⟩
                              · show mget (msetIfPresent cs.users idx.userId
                                    { ust with lastActivityAt := now }) q.2.userId =
                                  some { ust with lastActivityAt := now }
                                rw [hqu, mget_msetIfPresent_self, hu]
                                rfl
                              · show ust.socketId = q.1
                                rw [husteq]
                                exact hsq
                            · refine ⟨_, hcsX, ustq, ?_, hsq⟩
                              show mget (msetIfPresent cs.users idx.userId
                                  { ust with lastActivityAt := now }) q.2.userId = some ustq
                              rw [mget_msetIfPresent_ne _ _ hqu]
                              exact huq
                          · refine ⟨csq, ?_, ustq, huq, hsq⟩
                            show mget (msetIfPresent s.channels idx.channelCode _)
                              q.2.channelCode = some csq
                            rw [mget_msetIfPresent_ne _ _ hqc]
                            exact hcq

theorem handleDisconnect_inv (s : ServerState) (socketId : String) (now : Nat)
    (hInv : ServerInv s) : ServerInv (handleDisconnect s socketId now).1 :=
  removeUser_inv s socketId now none hInv

/-- C9 as amended: in every state satisfying the membership invariant
(unique socket-index keys; every binding names a live channel whose users
map contains its userId, with the user state pointing back at the socket;
every live channel nonempty; unique map keys throughout), the invariant is
preserved by `handleCreate` (for a fresh generated user id and a generated
code unused among active channels, as `randomUUID`/`generateChannelCode`
provide), by `handleLeave`, by `handleSendAudioMessage`'s state effect and
by disconnect unconditionally, and by `handleJoin` provided the join does
not target the caller's own channel while the caller is its sole member —
in that excluded case the detach deletes the channel and the subsequent
attach mutates a stale object, leaving a dangling socket-index entry (see
the counterexample). -/
theorem membership_invariant_preserved (s : ServerState) (hInv : ServerInv s) :
    (∀ (db : Option Store) (socketId : String) (nickRaw codeOpt : Option String)
        (uid : String) (now : Nat), FreshUserId s uid →
      (∀ c, codeOpt = some c → mget s.channels c = none) →
      ServerInv (handleCreate db s socketId nickRaw codeOpt uid now).1) ∧
    (∀ (db : Option Store) (socketId : String) (codeRaw nickRaw : Option String)
        (uid : String) (now : Nat), FreshUserId s uid →
      (∀ code idx cs, codeRaw = some code → isValidChannelCode code = true →
        mget s.socketIndex socketId = some idx → idx.channelCode = code →
        mget s.channels code = some cs → ¬ (cs.users.length = 1)) →
      ServerInv (handleJoin db s socketId codeRaw nickRaw uid now).1) ∧
    (∀ (socketId : String) (codeRaw : Option String) (now : Nat),
      ServerInv (handleLeave s socketId codeRaw now).1) ∧
    (∀ (socketId cc sender : String) (shapeOk nickOk locOk decodeOk persistOk : Bool)
        (now : Nat),
      ServerInv (handleSendAudioMem s socketId cc sender shapeOk nickOk locOk decodeOk
        persistOk now)) ∧
    (∀ (socketId : String) (now : Nat),
      ServerInv (handleDisconnect s socketId now).1) := by
  refine ⟨?_, ?_, ?_, ?_, ?_⟩
  · intro db socketId nickRaw codeOpt uid now hfresh hcode
    exact handleCreate_inv db s socketId nickRaw codeOpt uid now hInv hfresh hcode
  · intro db socketId codeRaw nickRaw uid now hfresh hsafe
    exact handleJoin_inv db s socketId codeRaw nickRaw uid now hInv hfresh hsafe
  · intro socketId codeRaw now
    exact handleLeave_inv s socketId codeRaw now hInv
  · intro socketId cc sender shapeOk nickOk locOk decodeOk persistOk now
    exact handleSendAudioMem_inv s socketId cc sender shapeOk nickOk locOk decodeOk
      persistOk now hInv
  · intro socketId now
    exact handleDisconnect_inv s socketId now hInv

/-- A one-member channel with its socket binding. -/
def c9Start : ServerState :=
  ⟨[("1234", ⟨⟨"1234", "Channel 1234", 0⟩,
      [("u1", ⟨⟨"u1", "alice", "1234", 0, true⟩, "s1", 0⟩)], 0⟩)],
    [("s1", ⟨"1234", "u1"⟩)], []⟩

/-- C9 counterexample: the invariant holds in a state with one channel whose
sole member is socket `s1`; after `s1` sends `channel:join` for its **own**
channel, the handler detaches (emptying and deleting the channel) and then
attaches into the stale channel object, so the final state has an empty
channels map but a socket-index entry pointing at channel `1234` — the
binding names a channel absent from the map, violating the invariant at the
end of a join invocation. -/
theorem membership_invariant_counterexample :
    ServerInv c9Start ∧
    (handleJoin none c9Start "s1" (some "1234") (some "bob") "u2" 5).1 =
      ⟨[], [("s1", ⟨"1234", "u2"⟩)], []⟩ ∧
    ¬ ServerInv (⟨[], [("s1", ⟨"1234", "u2"⟩)], []⟩ : ServerState) := by
  refine ⟨⟨by decide, by decide, ?_, ?_⟩, by decide, ?_⟩
  · intro p hp
    simp only [c9Start, List.mem_singleton] at hp
    subst hp
    exact ⟨by decide, rfl, fun _ => by decide⟩
  · intro q hq
    simp only [c9Start, List.mem_singleton] at hq
    subst hq
    exact ⟨_, rfl, _, rfl, rfl⟩
  · intro hbad
    obtain ⟨cs, hcs, _⟩ := hbad.2.2.2 ("s1", ⟨"1234", "u2"⟩) (List.mem_singleton.mpr rfl)
    simp [mget] at hcs

/-- Witness for the amended C9: starting from the empty server state, a
create and a leave preserve the invariant. -/
theorem membership_invariant_preserved_witness :
    ServerInv (⟨[], [], []⟩ : ServerState) ∧
    ServerInv (handleCreate none ⟨[], [], []⟩ "s1" (some "alice") (some "1234") "u1" 3).1 ∧
    ServerInv (handleLeave ⟨[], [], []⟩ "s1" none 3).1 := by
  have hInv0 : ServerInv (⟨[], [], []⟩ : ServerState) := by
    refine ⟨by decide, by decide, ?_, ?_⟩
    · intro p hp
      simp at hp
    · intro q hq
      simp at hq
  have h := membership_invariant_preserved ⟨[], [], []⟩ hInv0
  refine ⟨hInv0, h.1 none "s1" (some "alice") (some "1234") "u1" 3 ⟨?_, ?_⟩ ?_,
    h.2.2.1 "s1" none 3⟩
  · intro p hp
    simp at hp
  · intro q hq
    simp at hq
  · intro c _
    rfl

/-! ## Strict base64 validation and decoding (C10)

`estimateBase64Bytes` and `decodeBase64Audio` from the server, together
with a model of Node's `Buffer.from(value, 'base64')` decoder, which skips
every character outside the base64 alphabet (whitespace, `=`) and converts
the remaining 6-bit groups into bytes, dropping a trailing partial byte. -/

/-- Membership in the strict base64 alphabet `[A-Za-z0-9+/]`. -/
def isB64Char (c : Char) : Bool :=
  ('A' ≤ c && c ≤ 'Z') || ('a' ≤ c && c ≤ 'z') || ('0' ≤ c && c ≤ '9') ||
    c = '+' || c = '/'

/-- The 6-bit value of a base64 alphabet character. -/
def b64Value (c : Char) : Nat :=
  if 'A' ≤ c && c ≤ 'Z' then c.toNat - 65
  else if 'a' ≤ c && c ≤ 'z' then c.toNat - 97 + 26
  else if '0' ≤ c && c ≤ '9' then c.toNat - 48 + 52
  else if c = '+' then 62
  else 63

/-- The six bits of a sextet, most significant first. -/
def sextetBits (v : Nat) : List Bool :=
  [decide (v / 32 % 2 = 1), decide (v / 16 % 2 = 1), decide (v / 8 % 2 = 1),
    decide (v / 4 % 2 = 1), decide (v / 2 % 2 = 1), decide (v % 2 = 1)]

/-- The weight of one bit. -/
def bitVal (b : Bool) (w : Nat) : Nat := if b then w else 0

/-- Regroup a bit stream into bytes, dropping the trailing partial byte —
what Node's base64 decoder does with leftover bits. -/
def bytesOfBits : List Bool → List Nat
  | b7 :: b6 :: b5 :: b4 :: b3 :: b2 :: b1 :: b0 :: rest =>
    (bitVal b7 128 + bitVal b6 64 + bitVal b5 32 + bitVal b4 16 + bitVal b3 8 +
      bitVal b2 4 + bitVal b1 2 + bitVal b0 1) :: bytesOfBits rest
  | _ => []

/-- Node `Buffer.from(value, 'base64')`: ignore non-alphabet characters,
concatenate the sextets' bits, and regroup into bytes. -/
def decodeBase64Bytes (value : List Char) : List Nat :=
  bytesOfBits (((value.filter isB64Char).map (fun c => sextetBits (b64Value c))).flatten)

/-- The regex test `/^[A-Za-z0-9+/]+={0,2}$/`: a nonempty run of alphabet
characters followed by at most two `=` (greedy match; `=` is not in the
alphabet, so `takeWhile` is exactly the regex's first group). -/
def matchStrict (l : List Char) : Bool :=
  let core := l.takeWhile isB64Char
  let rest := l.drop core.length
  decide (core ≠ []) && rest.all (fun c => c = '=') && decide (rest.length ≤ 2)

/-- JavaScript `l.endsWith(suffix)`. -/
def jsEndsWith (l suffix : List Char) : Bool :=
  decide (l.reverse.take suffix.length = suffix.reverse)

/-- `estimateBase64Bytes`: trim, require nonzero length divisible by 4 and
the strict alphabet/padding shape, then estimate
`max 0 (floor(len*3/4) - padding)` (natural subtraction is the `max 0`). -/
def estimateBase64Bytes (value : List Char) : Option Nat :=
  let trimmed := trimCharList value
  if trimmed.length = 0 ∨ trimmed.length % 4 ≠ 0 then none
  else if matchStrict trimmed = false then none
  else
    let padding := if jsEndsWith trimmed ['=', '='] then 2
      else if jsEndsWith trimmed ['='] then 1 else 0
    some (trimmed.length * 3 / 4 - padding)

/-- The eight bits of a byte, most significant first. -/
def byteBits (v : Nat) : List Bool :=
  [decide (v / 128 % 2 = 1), decide (v / 64 % 2 = 1), decide (v / 32 % 2 = 1),
    decide (v / 16 % 2 = 1), decide (v / 8 % 2 = 1), decide (v / 4 % 2 = 1),
    decide (v / 2 % 2 = 1), decide (v % 2 = 1)]

/-- Regroup a bit stream into sextets, zero-padding the trailing group
(canonical base64 encoding). -/
def sextetsOfBits : List Bool → List Nat
  | b5 :: b4 :: b3 :: b2 :: b1 :: b0 :: rest =>
    (bitVal b5 32 + bitVal b4 16 + bitVal b3 8 + bitVal b2 4 + bitVal b1 2 +
      bitVal b0 1) :: sextetsOfBits rest
  | [] => []
  | rest =>
    [(List.zipWith bitVal (rest ++ List.replicate (6 - rest.length) false)
      [32, 16, 8, 4, 2, 1]).sum]

/-- The base64 alphabet character of a sextet. -/
def b64CharOfSextet (v : Nat) : Char :=
  if v < 26 then Char.ofNat (65 + v)
  else if v < 52 then Char.ofNat (97 + v - 26)
  else if v < 62 then Char.ofNat (48 + v - 52)
  else if v = 62 then '+'
  else '/'

/-- `buffer.toString('base64')` without the trailing `=` padding. -/
def encodeBase64NoPad (bytes : List Nat) : List Char :=
  (sextetsOfBits ((bytes.map byteBits).flatten)).map b64CharOfSextet

/-- JavaScript `replace(/=+$/, '')`. -/
def stripTrailingPad (l : List Char) : List Char :=
  (l.reverse.dropWhile (fun c => c = '=')).reverse

/-- `decodeBase64Audio`: decode, reject on a length mismatch with the
estimate, then reject unless re-encoding reproduces the (trimmed,
padding-stripped) input. -/
def decodeBase64Audio (value : List Char) (expectedBytes : Nat) : Option (List Nat) :=
  let buffer := decodeBase64Bytes value
  if buffer.length ≠ expectedBytes then none
  else if encodeBase64NoPad buffer ≠ stripTrailingPad (trimCharList value) then none
  else some buffer

/-! ### Base64 length bookkeeping -/

theorem sextetBits_length (v : Nat) : (sextetBits v).length = 6 := rfl

theorem flatten_sextets_length (l : List Char) :
    ((l.map (fun c => sextetBits (b64Value c))).flatten).length = 6 * l.length := by
  induction l with
  | nil => rfl
  | cons a l ih =>
    simp only [List.map_cons, List.flatten_cons, List.length_append, ih, List.length_cons,
      sextetBits_length]
    omega

theorem bytesOfBits_length : ∀ bits : List Bool, (bytesOfBits bits).length = bits.length / 8
  | b7 :: b6 :: b5 :: b4 :: b3 :: b2 :: b1 :: b0 :: rest => by
    have ih := bytesOfBits_length rest
    simp only [bytesOfBits, List.length_cons, ih]
    omega
  | [] => rfl
  | [_] => by simp [bytesOfBits]
  | [_, _] => by simp [bytesOfBits]
  | [_, _, _] => by simp [bytesOfBits]
  | [_, _, _, _] => by simp [bytesOfBits]
  | [_, _, _, _, _] => by simp [bytesOfBits]
  | [_, _, _, _, _, _] => by simp [bytesOfBits]
  | [_, _, _, _, _, _, _] => by simp [bytesOfBits]

theorem isJsWhitespace_not_b64 (c : Char) (h : isJsWhitespace c = true) :
    isB64Char c = false := by
  have h' : c = ' ' ∨ c = '\t' ∨ c = '\n' ∨ c = '\r' ∨ c = '\x0b' ∨ c = '\x0c' ∨
      c = '\u00A0' ∨ c = '﻿' := by
    simpa [isJsWhitespace, or_assoc] using h
  rcases h' with rfl | rfl | rfl | rfl | rfl | rfl | rfl | rfl <;> decide

theorem isB64Char_ne_pad (c : Char) (h : isB64Char c = true) : ¬ c = '=' := by
  intro hc
  subst hc
  exact absurd h (by decide)

theorem filter_dropWhile_ws (l : List Char) :
    (l.dropWhile isJsWhitespace).filter isB64Char = l.filter isB64Char := by
  induction l with
  | nil => rfl
  | cons a l ih =>
    by_cases ha : isJsWhitespace a = true
    · have hb := isJsWhitespace_not_b64 a ha
      simp [List.dropWhile_cons, ha, List.filter_cons, hb, ih]
    · simp [List.dropWhile_cons, ha]

theorem filter_trim (l : List Char) :
    (trimCharList l).filter isB64Char = l.filter isB64Char := by
  simp only [trimCharList]
  rw [List.filter_reverse, filter_dropWhile_ws, List.filter_reverse, filter_dropWhile_ws,
    List.reverse_reverse]

theorem drop_takeWhile_length (p : Char → Bool) (t : List Char) :
    t.drop (t.takeWhile p).length = t.dropWhile p := by
  have h := List.takeWhile_append_dropWhile p t
  calc t.drop (t.takeWhile p).length
      = (t.takeWhile p ++ t.dropWhile p).drop (t.takeWhile p).length := by rw [h]
    _ = t.dropWhile p := List.drop_left _ _

theorem paddingAux (c' : List Char) (a : Char) (haNe : ¬ a = '=') :
    ∀ rest : List Char, rest.length ≤ 2 → (∀ c ∈ rest, c = '=') →
      (if jsEndsWith (c' ++ a :: rest) ['=', '='] then 2
        else if jsEndsWith (c' ++ a :: rest) ['='] then 1 else 0) = rest.length := by
  intro rest hlen hall
  match rest with
  | [] =>
    have h2 : jsEndsWith (c' ++ [a]) ['=', '='] = false := by
      simp [jsEndsWith, List.reverse_append, List.take_succ_cons, haNe]
    have h1 : jsEndsWith (c' ++ [a]) ['='] = false := by
      simp [jsEndsWith, List.reverse_append, List.take_succ_cons, haNe]
    simp [h1, h2]
  | [x] =>
    have hx : x = '=' := hall x (by simp)
    subst hx
    have h2 : jsEndsWith (c' ++ a :: ['=']) ['=', '='] = false := by
      simp [jsEndsWith, List.reverse_append, List.take_succ_cons, haNe]
    have h1 : jsEndsWith (c' ++ a :: ['=']) ['='] = true := by
      simp [jsEndsWith, List.reverse_append, List.take_succ_cons]
    simp [h1, h2]
  | [x, y] =>
    have hx : x = '=' := hall x (by simp)
    have hy : y = '=' := hall y (by simp)
    subst hx
    subst hy
    have h2 : jsEndsWith (c' ++ a :: ['=', '=']) ['=', '='] = true := by
      simp [jsEndsWith, List.reverse_append, List.take_succ_cons]
    simp [h2]
  | x :: y :: z :: rest' => simp at hlen

/-- C10: for every string accepted by the server's strict base64 check
(non-empty after trim, length a multiple of 4, alphabet characters followed
by at most two trailing `=`), `estimateBase64Bytes` returns exactly the
number of bytes produced by actually decoding the string, so the length
comparison inside `decodeBase64Audio` never fails for such inputs: the
re-decode returns `none` exactly when the canonical re-encoding check
rejects, i.e. when re-encoding the decoded bytes differs from the trimmed,
padding-stripped input. -/
theorem base64_estimate_matches_decode (value : List Char) (e : Nat)
    (h : estimateBase64Bytes value = some e) :
    (decodeBase64Bytes value).length = e ∧
      (decodeBase64Audio value e = none ↔
        encodeBase64NoPad (decodeBase64Bytes value) ≠ stripTrailingPad (trimCharList value)) := by
  simp only [estimateBase64Bytes] at h
  by_cases h0 : (trimCharList value).length = 0 ∨ (trimCharList value).length % 4 ≠ 0
  · rw [if_pos h0] at h
    exact absurd h (by simp)
  rw [if_neg h0] at h
  by_cases h1 : matchStrict (trimCharList value) = false
  · rw [if_pos h1] at h
    exact absurd h (by simp)
  rw [if_neg h1] at h
  have hms : matchStrict (trimCharList value) = true := by
    cases hb : matchStrict (trimCharList value) with
    | false => exact absurd hb h1
    | true => rfl
  set t := trimCharList value with ht
  push_neg at h0
  obtain ⟨hne0, hmod4⟩ := h0
  simp only [matchStrict] at hms
  rw [drop_takeWhile_length] at hms
  simp only [Bool.and_eq_true, decide_eq_true_eq, List.all_eq_true] at hms
  obtain ⟨⟨hne, hall⟩, hrlen⟩ := hms
  have hall' : ∀ c ∈ t.dropWhile isB64Char, c = '=' := by
    intro c hc
    simpa using hall c hc
  have hsplit : t.takeWhile isB64Char ++ t.dropWhile isB64Char = t :=
    List.takeWhile_append_dropWhile isB64Char t
  have hfc : (t.takeWhile isB64Char).filter isB64Char = t.takeWhile isB64Char :=
    List.filter_eq_self.mpr (fun a ha => List.mem_takeWhile_imp ha)
  have hfr : (t.dropWhile isB64Char).filter isB64Char = [] := by
    rw [List.filter_eq_nil_iff]
    intro a ha
    have hae := hall' a ha
    subst hae
    decide
  have hvf : value.filter isB64Char = t.takeWhile isB64Char := by
    rw [← filter_trim value, ← ht]
    calc t.filter isB64Char
        = (t.takeWhile isB64Char ++ t.dropWhile isB64Char).filter isB64Char := by rw [hsplit]
      _ = (t.takeWhile isB64Char).filter isB64Char ++
            (t.dropWhile isB64Char).filter isB64Char := List.filter_append _ _
      _ = t.takeWhile isB64Char := by rw [hfc, hfr, List.append_nil]
  have hdec : (decodeBase64Bytes value).length = 6 * (t.takeWhile isB64Char).length / 8 := by
    simp only [decodeBase64Bytes]
    rw [bytesOfBits_length, hvf, flatten_sextets_length]
  obtain hc0 | ⟨c', a, hca⟩ := List.eq_nil_or_concat (t.takeWhile isB64Char)
  · exact absurd hc0 hne
  have hca' : t.takeWhile isB64Char = c' ++ [a] := by
    simpa [List.concat_eq_append] using hca
  have haB : isB64Char a = true := List.mem_takeWhile_imp (by rw [hca']; simp)
  have haNe : ¬ a = '=' := isB64Char_ne_pad a haB
  have hT : t = c' ++ a :: t.dropWhile isB64Char := by
    conv_lhs => rw [← hsplit]
    rw [hca']
    simp
  rw [hT, paddingAux c' a haNe (t.dropWhile isB64Char) hrlen hall'] at h
  have he := Option.some.inj h
  have hLenT : t.length = c'.length + 1 + (t.dropWhile isB64Char).length := by
    conv_lhs => rw [hT]
    simp [List.length_append]
    omega
  have hLenC : (c' ++ a :: t.dropWhile isB64Char).length =
      c'.length + 1 + (t.dropWhile isB64Char).length := by
    simp [List.length_append]
    omega
  have hfirst : (decodeBase64Bytes value).length = e := by
    rw [hdec, hca', ← he, hLenC]
    have hcl : (c' ++ [a]).length = c'.length + 1 := by simp
    rw [hcl]
    omega
  refine ⟨hfirst, ?_⟩
  simp only [decodeBase64Audio]
  rw [← ht]
  rw [if_neg (fun hc => hc hfirst)]
  by_cases hEnc : encodeBase64NoPad (decodeBase64Bytes value) ≠ stripTrailingPad t
  · rw [if_pos hEnc]
    simp [hEnc]
  · rw [if_neg hEnc]
    simp [hEnc]

/-- The C10 theorem applied at the concrete accepted input `QQ==`, whose
estimate is 1 byte. -/
theorem base64_estimate_matches_decode_witness :
    estimateBase64Bytes ['Q', 'Q', '=', '='] = some 1 ∧
      ((decodeBase64Bytes ['Q', 'Q', '=', '=']).length = 1 ∧
        (decodeBase64Audio ['Q', 'Q', '=', '='] 1 = none ↔
          encodeBase64NoPad (decodeBase64Bytes ['Q', 'Q', '=', '=']) ≠
            stripTrailingPad (trimCharList ['Q', 'Q', '=', '=']))) :=
  ⟨by decide, base64_estimate_matches_decode ['Q', 'Q', '=', '='] 1 (by decide)⟩
